import Mathlib

/-!
Verification development for the chrome-api-discovery repository.

The definitions below are a shallow embedding of the two core source files
`src/lib/api-analyzer.js` (class `APIAnalyzer`) and
`src/lib/openapi-generator.js` (classes `OpenAPIGenerator` and `Utils`).
JavaScript objects are modelled as insertion-ordered association lists
(`List (String × α)`), JavaScript `Set`/`Map` as lists deduplicated on
insertion, strings as Lean `String`/`List Char`, and thrown exceptions as
`Except String`.  The mutable instance fields `schemaCache` and
`operationIdCache` of `OpenAPIGenerator` are threaded explicitly as a state
record.
-/

/-! ## Generic association-list and set helpers (JS object / Set / Map semantics) -/

/-- JS object assignment `obj[k] = v`: overwrite in place if the key exists
(keeping its position), otherwise append the key at the end. -/
def setKey {α : Type} : List (String × α) → String → α → List (String × α)
  | [], k, v => [(k, v)]
  | (k', v') :: t, k, v =>
      if k' = k then (k, v) :: t else (k', v') :: setKey t k v

/-- JS object read `obj[k]`: value at the first matching key. -/
def lookupA {α : Type} : List (String × α) → String → Option α
  | [], _ => none
  | (k', v') :: t, k => if k' = k then some v' else lookupA t k

/-- JS `Set.add` / first-occurrence deduplicating insertion. -/
def addNew {α : Type} [DecidableEq α] (l : List α) (x : α) : List α :=
  if x ∈ l then l else l ++ [x]

/-- Worker for `uniqFirst`: drops elements already seen. -/
def uniqFirstGo {α : Type} [DecidableEq α] : List α → List α → List α
  | [], _ => []
  | x :: xs, seen =>
      if x ∈ seen then uniqFirstGo xs seen else x :: uniqFirstGo xs (seen ++ [x])

/-- JS `new Set(array)` converted back to an array: keeps the first
occurrence of each element, in encounter order. -/
def uniqFirst {α : Type} [DecidableEq α] (l : List α) : List α := uniqFirstGo l []

/-- JS `Map` counter increment `m.set(k, (m.get(k) || 0) + 1)`. -/
def incKey {κ : Type} [DecidableEq κ] : List (κ × Nat) → κ → List (κ × Nat)
  | [], k => [(k, 1)]
  | (k', n) :: t, k =>
      if k' = k then (k', n + 1) :: t else (k', n) :: incKey t k

/-- Stable descending insertion by a numeric measure: the new element goes
after all existing elements whose measure is at least as large.  This is the
unique stable descending order, hence agrees with JS `Array.sort` under the
comparator `(a, b) => f(b) - f(a)` (JS sort is stable). -/
def insDesc {α : Type} (f : α → Nat) (x : α) : List α → List α
  | [] => [x]
  | y :: ys => if f y < f x then x :: y :: ys else y :: insDesc f x ys

/-- Stable sort descending by a numeric measure (models stable JS `sort`). -/
def sortByDesc {α : Type} (f : α → Nat) (l : List α) : List α :=
  l.foldl (fun acc x => insDesc f x acc) []

/-! ## Character classes and substring search -/

/-- Regex class `\d`. -/
def isDigitC (c : Char) : Bool := c.isDigit

/-- Regex class `[a-f0-9]` under the `i` flag. -/
def isHexCI (c : Char) : Bool :=
  c.isDigit || ('a' ≤ c && c ≤ 'f') || ('A' ≤ c && c ≤ 'F')

/-- Regex class `[a-z0-9]` under the `i` flag. -/
def isAlnumCI (c : Char) : Bool :=
  c.isDigit || ('a' ≤ c && c ≤ 'z') || ('A' ≤ c && c ≤ 'Z')

/-- Whether the first list is an initial run of the second. -/
def leadsWith : List Char → List Char → Bool
  | [], _ => true
  | _ :: _, [] => false
  | a :: as, b :: bs => a = b && leadsWith as bs

/-- Whether `needle` occurs contiguously inside `hay` (JS `String.includes`). -/
def hasSub (needle : List Char) : List Char → Bool
  | [] => leadsWith needle []
  | c :: t => leadsWith needle (c :: t) || hasSub needle t

/-- JS `hay.includes(needle)` on Lean strings. -/
def strIncludes (hay needle : String) : Bool := hasSub needle.data hay.data

/-- JS `s.toUpperCase()` (ASCII, which is all this repository feeds it). -/
def upStr (s : String) : String := String.mk (s.data.map Char.toUpper)

/-- JS `s.toLowerCase()` (ASCII). -/
def lowStr (s : String) : String := String.mk (s.data.map Char.toLower)

/-- Split on a single character (JS `s.split(c)`). -/
def splitOnC (sep : Char) : List Char → List (List Char)
  | [] => [[]]
  | c :: rest =>
      if c = sep then [] :: splitOnC sep rest
      else
        match splitOnC sep rest with
        | h :: t => (c :: h) :: t
        | [] => [[c]]

/-- JS `pathname.split('/')` on Lean strings. -/
def splitSlash (s : String) : List String := (splitOnC '/' s.data).map String.mk

/-! ## Decimal rendering of naturals (JS number-to-string for the suffix counter) -/

/-- Decimal digit character. -/
def digCh (n : Nat) : Char := Char.ofNat (48 + n)

/-- Decimal digit list of a natural number (fuel-bounded; the fuel used by
`natDigs` is always sufficient, see `natDigsF_fuel`). -/
def natDigsF : Nat → Nat → List Char
  | 0, _ => []
  | fuel + 1, n =>
      if n < 10 then [digCh n]
      else natDigsF fuel (n / 10) ++ [digCh (n % 10)]

/-- Decimal digit list of a natural number, most significant first. -/
def natDigs (n : Nat) : List Char := natDigsF (n + 1) n

/-- Decimal string of a natural number (JS `String(n)` for integral `n`). -/
def natStr (n : Nat) : String := String.mk (natDigs n)

/-! ## URL model

Modelled from the WHATWG `URL` constructor as used by the repository:
absolute hierarchical `http`/`https` URLs with an optional port, path, and
query.  `parseURL` returns `none` exactly where `new URL(...)` throws for the
inputs this repository handles (strings without an `http(s)://` scheme, or
with an empty/invalid host).  `protocol` keeps the trailing colon, `hostname`
excludes the port, and the default ports 80/443 are elided, matching the
`URL` properties of the same names. -/

structure URLRec where
  protocol : String
  hostname : String
  port : String
  pathname : String
  search : String
deriving DecidableEq

/-- Characters accepted in a host name by this model. -/
def isHostChar (c : Char) : Bool :=
  c.isAlphanum || c = '.' || c = '-'

/-- Parse an absolute http(s) URL; `none` models a thrown `TypeError`. -/
def parseURL (s : String) : Option URLRec :=
  let l := s.data
  let (scheme, rest) :=
    if leadsWith "https://".data l then ("https:", l.drop 8)
    else if leadsWith "http://".data l then ("http:", l.drop 7)
    else ("", l)
  if scheme = "" then none
  else
    let hostport := rest.takeWhile (fun c => c ≠ '/' && c ≠ '?' && c ≠ '#')
    let after := rest.drop hostport.length
    let hostname := hostport.takeWhile (fun c => c ≠ ':')
    let rawPort := (hostport.dropWhile (fun c => c ≠ ':')).drop 1
    if hostname = [] then none
    else if ¬ (hostname.all isHostChar) then none
    else if ¬ (rawPort.all Char.isDigit) then none
    else
      let port :=
        if (scheme = "https:" && rawPort = "443".data) ||
           (scheme = "http:" && rawPort = "80".data) then []
        else rawPort
      let rawPath := after.takeWhile (fun c => c ≠ '?' && c ≠ '#')
      let path := if rawPath = [] then "/".data else rawPath
      let search := (after.drop rawPath.length).takeWhile (fun c => c ≠ '#')
      let search := if search = "?".data then [] else search
      some { protocol := scheme, hostname := String.mk hostname,
             port := String.mk port, pathname := String.mk path,
             search := String.mk search }

/-- `url.origin`: scheme, host and (non-default) port. -/
def URLRec.origin (u : URLRec) : String :=
  u.protocol ++ "//" ++ u.hostname ++ (if u.port = "" then "" else ":" ++ u.port)

/-! ## ECMAScript numeric coercion

Modelled from the ECMAScript `ToNumber` conversion applied to strings, as
exercised by `isNaN(value)` in `APIAnalyzer.inferParameterTypes` and
`OpenAPIGenerator.inferParameterType`: whitespace-trimmed empty string is 0,
otherwise an optionally signed decimal literal (with optional fraction and
exponent), `Infinity`, or an unsigned `0x`/`0o`/`0b` radix literal. -/

def isJsWS (c : Char) : Bool :=
  c = ' ' || c = '\t' || c = '\n' || c = '\r' || c = '\x0b' || c = '\x0c'

/-- Optional exponent part `[eE][+-]?digits` (empty list means no exponent). -/
def chkExp (l : List Char) : Bool :=
  match l with
  | [] => true
  | c :: r =>
      if c = 'e' || c = 'E' then
        let r2 := match r with
          | s :: rr => if s = '+' || s = '-' then rr else s :: rr
          | [] => []
        r2 ≠ [] && r2.all Char.isDigit
      else false

/-- Unsigned decimal literal `digits[.digits][exp]` or `.digits[exp]`. -/
def chkDec (l : List Char) : Bool :=
  let intPart := l.takeWhile Char.isDigit
  let r1 := l.dropWhile Char.isDigit
  match r1 with
  | '.' :: r2 =>
      let frac := r2.takeWhile Char.isDigit
      let r3 := r2.dropWhile Char.isDigit
      (intPart ≠ [] || frac ≠ []) && chkExp r3
  | _ => intPart ≠ [] && chkExp r1

/-- Unsigned magnitude: `Infinity` or a decimal literal. -/
def chkMag (l : List Char) : Bool :=
  l = "Infinity".data || chkDec l

/-- Optionally signed magnitude. -/
def chkSigned (l : List Char) : Bool :=
  match l with
  | c :: r => if c = '+' || c = '-' then chkMag r else chkMag (c :: r)
  | [] => false

/-- Unsigned radix literal `0x…`, `0o…`, `0b…`. -/
def chkRadix (l : List Char) : Bool :=
  match l with
  | '0' :: x :: r =>
      if x = 'x' || x = 'X' then r ≠ [] && r.all isHexCI
      else if x = 'o' || x = 'O' then r ≠ [] && r.all (fun c => '0' ≤ c && c ≤ '7')
      else if x = 'b' || x = 'B' then r ≠ [] && r.all (fun c => c = '0' || c = '1')
      else false
  | _ => false

/-- Whether `Number(s)` is not `NaN` (so `!isNaN(s)` holds in JS). -/
def jsIsNumeric (s : String) : Bool :=
  let t := ((s.data.dropWhile isJsWS).reverse.dropWhile isJsWS).reverse
  t = [] || chkRadix t || chkSigned t

/-! ## Regex replacement scanners

Each path-templating regex of the repository matches only at a `'/'`, so a
global `String.replace` is a left-to-right scan that, at each `'/'`, attempts
the pattern against the remainder and otherwise copies one character.
`passNC` models patterns whose trailing `(?=\/|$)` is a zero-width lookahead
(the `OpenAPIGenerator` regexes); `passC` models patterns whose trailing
`(\/|$)` group is consumed by the match (the `APIAnalyzer` regexes).  The
`tryFn` argument returns `some n` when the pattern matches the `n` characters
after the `'/'` (lookahead excluded), `none` otherwise. -/

/-- Whether a position is the start of a `'/'` or the end of the string
(the regex tail `\/|$`). -/
def lookSlash : List Char → Bool
  | [] => true
  | c :: _ => c = '/'

/-- Fuel-bounded worker for `passNC` (fuel at least the list length is
always sufficient: every recursive call is on a suffix of the tail). -/
def passNCF (tryFn : List Char → Option Nat) (repl : List Char) : Nat → List Char → List Char
  | _, [] => []
  | 0, l => l
  | fuel + 1, c :: rest =>
      if c = '/' then
        match tryFn rest with
        | some n => ('/' :: repl) ++ passNCF tryFn repl fuel (rest.drop n)
        | none => '/' :: passNCF tryFn repl fuel rest
      else c :: passNCF tryFn repl fuel rest

/-- Global replace for a slash-anchored pattern with zero-width tail. -/
def passNC (tryFn : List Char → Option Nat) (repl : List Char) (l : List Char) : List Char :=
  passNCF tryFn repl l.length l

/-- Fuel-bounded worker for `passC`. -/
def passCF (tryFn : List Char → Option Nat) (repl : List Char) : Nat → List Char → List Char
  | _, [] => []
  | 0, l => l
  | fuel + 1, c :: rest =>
      if c = '/' then
        match tryFn rest with
        | some n => ('/' :: repl) ++ passCF tryFn repl fuel ((rest.drop n).drop 1)
        | none => '/' :: passCF tryFn repl fuel rest
      else c :: passCF tryFn repl fuel rest

/-- Global replace for a slash-anchored pattern whose `(\/|$)` tail is
consumed by the match. -/
def passC (tryFn : List Char → Option Nat) (repl : List Char) (l : List Char) : List Char :=
  passCF tryFn repl l.length l

/-- Matcher for `\d+` followed by `\/|$` (greedy run of digits; a shorter
run would be followed by a digit, which fails the tail, so the maximal run
is the only candidate). -/
def tryId (l : List Char) : Option Nat :=
  let ds := l.takeWhile isDigitC
  if ds ≠ [] && lookSlash (l.dropWhile isDigitC) then some ds.length else none

/-- Shape test for the canonical 8-4-4-4-12 hex UUID (case-insensitive). -/
def uuidShape (cs : List Char) : Bool :=
  (cs.take 8).length = 8 && (cs.take 8).all isHexCI &&
  (cs.drop 8).head? = some '-' &&
  ((cs.drop 9).take 4).length = 4 && ((cs.drop 9).take 4).all isHexCI &&
  (cs.drop 13).head? = some '-' &&
  ((cs.drop 14).take 4).length = 4 && ((cs.drop 14).take 4).all isHexCI &&
  (cs.drop 18).head? = some '-' &&
  ((cs.drop 19).take 4).length = 4 && ((cs.drop 19).take 4).all isHexCI &&
  (cs.drop 23).head? = some '-' &&
  (cs.drop 24).length = 12 && (cs.drop 24).all isHexCI

/-- Matcher for the UUID regex body followed by the `\/|$` tail. -/
def tryUuid (l : List Char) : Option Nat :=
  if uuidShape (l.take 36) && lookSlash (l.drop 36) then some 36 else none

/-- Matcher for `[a-f0-9]{24}` followed by the `\/|$` tail. -/
def tryObjId (l : List Char) : Option Nat :=
  let t := l.take 24
  if t.length = 24 && t.all isHexCI && lookSlash (l.drop 24) then some 24 else none

/-- Matcher for `[a-f0-9]{8,}` followed by `\/|$` (Analyzer UUID pattern;
greedy, so only the maximal hex run is a candidate). -/
def tryHex8 (l : List Char) : Option Nat :=
  let hs := l.takeWhile isHexCI
  if hs.length ≥ 8 && lookSlash (l.dropWhile isHexCI) then some hs.length else none

/-- Matcher for `[a-z0-9]{24}` with the `i` flag followed by `\/|$`
(Analyzer ObjectId pattern: any 24 alphanumerics). -/
def tryAlnum24 (l : List Char) : Option Nat :=
  let t := l.take 24
  if t.length = 24 && t.all isAlnumCI && lookSlash (l.drop 24) then some 24 else none

/-! ## Input records

One captured network observation, as consumed by `OpenAPIGenerator` and
`APIAnalyzer` (the capture layer sets `pathname`/`searchParams` from
`new URL(url)`, see `background.js createEndpointFromRequest`). -/

structure Endpoint where
  url : String
  method : String
  status : Nat
  contentType : String := "unknown"
  timestamp : String := ""
  responseSize : Nat := 0
  pathname : String := ""
  searchParams : List (String × String) := []
  headers : List (String × String) := []
deriving DecidableEq

/-! ## OpenAPIGenerator (src/lib/openapi-generator.js) -/

namespace OpenAPIGenerator

/-- `normalizePath`: the three global regex replaces, in source order
(numeric ids, then UUIDs, then 24-hex ObjectIds; the latter two use the
`i` flag, covered by `isHexCI`). -/
def normalizePath (pathname : String) : String :=
  String.mk (passNC tryObjId "{objectId}".data
    (passNC tryUuid "{uuid}".data
      (passNC tryId "{id}".data pathname.data)))

/-- `capitalize`: `str.charAt(0).toUpperCase() + str.slice(1)`. -/
def capitalize (s : String) : String :=
  match s.data with
  | [] => ""
  | c :: rest => String.mk (c.toUpper :: rest)

/-- `extractResourceName`: last non-empty `/`-segment, `"resource"` if none. -/
def extractResourceName (pathname : String) : String :=
  (((splitSlash pathname).filter (fun s => s ≠ "")).getLast?).getD "resource"

/-- The method-to-prefix table of `generateUniqueOperationId`. -/
def methodWord (method : String) : String :=
  let u := upStr method
  if u = "GET" then "get"
  else if u = "POST" then "create"
  else if u = "PUT" then "update"
  else if u = "DELETE" then "delete"
  else if u = "PATCH" then "patch"
  else if u = "HEAD" then "head"
  else if u = "OPTIONS" then "options"
  else lowStr method

/-- Base operation id before uniqueness suffixing: method prefix followed by
the capitalized last non-empty segment of the (raw) pathname, `"item"` if
the path has no segments. -/
def opIdBase (method pathname : String) : String :=
  methodWord method ++
    capitalize ((((splitSlash pathname).filter (fun s => s ≠ "")).getLast?).getD "item")

/-- The `while (cache.has(id))` search, bounded by provably sufficient fuel:
a candidate whose decimal suffix is longer than every cached string exists
below the fuel bound, so the bound is never reached (`freshLoop_not_mem`). -/
def freshLoop (base : String) (cache : List String) : Nat → Nat → String
  | counter, 0 => base ++ natStr counter
  | counter, fuel + 1 =>
      let cand := base ++ natStr counter
      if cand ∈ cache then freshLoop base cache (counter + 1) fuel else cand

/-- Maximal length of a cached id. -/
def maxLen (cache : List String) : Nat :=
  cache.foldr (fun s m => max s.length m) 0

/-- `generateUniqueOperationId`: returns the chosen id and the cache with
the id appended (`this.operationIdCache.add(operationId)`). -/
def generateUniqueOperationId (method pathname : String) (cache : List String) :
    String × List String :=
  let base := opIdBase method pathname
  let opId := if base ∈ cache then freshLoop base cache 1 (10 ^ (maxLen cache + 1)) else base
  (opId, cache ++ [opId])

/-- `generateOperationTags`. -/
def generateOperationTags (pathname : String) : List String :=
  let segments := (splitSlash pathname).filter (fun s => s ≠ "")
  let tags := match segments.head? with
    | some s => [s]
    | none => []
  if segments.length > 2 then tags ++ [segments.getD 1 ""] else tags

/-- `generateOperationSummary`. -/
def generateOperationSummary (e : Endpoint) : String :=
  let method := upStr e.method
  let resource := extractResourceName e.pathname
  if method = "GET" then "Retrieve " ++ resource
  else if method = "POST" then "Create " ++ resource
  else if method = "PUT" then "Update " ++ resource
  else if method = "DELETE" then "Delete " ++ resource
  else if method = "PATCH" then "Partially update " ++ resource
  else method ++ " " ++ resource

/-- `generateOperationDescription`. -/
def generateOperationDescr (e : Endpoint) : String :=
  upStr e.method ++ " operation for " ++ extractResourceName e.pathname ++ " at " ++
    e.pathname ++ ". Discovered automatically by API Discovery extension."

/-- One entry produced by `extractPathParameters`. -/
structure PathParam where
  name : String
  type : String
  format : Option String := none
  resource : String
deriving DecidableEq

/-- `getResourceFromSegment`. -/
def getResourceFromSegment (segments : List String) (index : Nat) : String :=
  if index > 0 then segments.getD (index - 1) "resource" else "resource"

/-- `extractPathParameters`: scans `pathname.split('/')` (unfiltered) and
recognizes anchored numeric / UUID / 24-hex segments. -/
def extractPathParameters (pathname : String) : List PathParam :=
  let segments := splitSlash pathname
  (segments.enum).filterMap (fun p =>
    let (index, segment) := p
    if segment ≠ "" && segment.data.all isDigitC then
      some { name := "id", type := "integer",
             resource := getResourceFromSegment segments index }
    else if uuidShape segment.data && segment.length = 36 then
      some { name := "uuid", type := "string", format := some "uuid",
             resource := getResourceFromSegment segments index }
    else if segment.length = 24 && segment.data.all isHexCI then
      some { name := "objectId", type := "string",
             resource := getResourceFromSegment segments index }
    else none)

/-- `inferParameterType` (per-value variant): the schema is `{type: t}`,
returned here as the type string. -/
def inferParameterType (value : String) : String :=
  if value = "true" || value = "false" then "boolean"
  else if jsIsNumeric value && value ≠ "" then "number"
  else "string"

/-- One OpenAPI parameter object as built by `generateParameters`. -/
structure Param where
  name : String
  loc : String
  required : Bool
  schemaType : String
  exampleVal : Option String := none
  description : String
deriving DecidableEq

/-- `generateParameters`: path parameters then query parameters. -/
def generateParameters (e : Endpoint) : List Param :=
  let pathParams := (extractPathParameters e.pathname).map (fun p =>
    { name := p.name, loc := "path", required := true, schemaType := p.type,
      description := "Identifier for " ++ p.resource })
  let queryParams := e.searchParams.map (fun nv =>
    { name := nv.1, loc := "query", required := false,
      schemaType := inferParameterType nv.2, exampleVal := some nv.2,
      description := "Query parameter: " ++ nv.1 })
  pathParams ++ queryParams

/-- `getStatusDescription`. -/
def getStatusDescription (status : Nat) : String :=
  if status = 200 then "OK"
  else if status = 201 then "Created"
  else if status = 204 then "No Content"
  else if status = 400 then "Bad Request"
  else if status = 401 then "Unauthorized"
  else if status = 403 then "Forbidden"
  else if status = 404 then "Not Found"
  else if status = 409 then "Conflict"
  else if status = 422 then "Unprocessable Entity"
  else if status = 429 then "Too Many Requests"
  else if status = 500 then "Internal Server Error"
  else if status = 502 then "Bad Gateway"
  else if status = 503 then "Service Unavailable"
  else "Response"

/-- One response block: its description and content map; each content entry
carries the `$ref` string of its schema (`generateResponseSchema` and the
error buckets always emit a `$ref`). -/
structure ResponseObj where
  description : String
  content : List (String × String)
deriving DecidableEq

/-- The `$ref` emitted by `generateResponseSchema` (both cache branches
return the same reference). -/
def responseSchemaRef (e : Endpoint) : String :=
  "#/components/schemas/" ++ capitalize (extractResourceName e.pathname)

/-- `generateResponseContent`. -/
def generateResponseContent (e : Endpoint) : List (String × String) :=
  if e.contentType ≠ "" && e.contentType ≠ "unknown" then
    [(e.contentType, responseSchemaRef e)]
  else
    [("application/json", responseSchemaRef e)]

/-- The `4xx` bucket object. -/
def clientErrorResp : ResponseObj :=
  { description := "Client error",
    content := [("application/json", "#/components/schemas/Error")] }

/-- The `5xx` bucket object. -/
def serverErrorResp : ResponseObj :=
  { description := "Server error",
    content := [("application/json", "#/components/schemas/Error")] }

/-- `generateResponses`: the observed status entry, then the `4xx` bucket if
`status >= 400`, then the `5xx` bucket if `status >= 500`. -/
def generateResponses (e : Endpoint) : List (String × ResponseObj) :=
  let base := [(natStr e.status,
    { description := getStatusDescription e.status,
      content := generateResponseContent e : ResponseObj })]
  let r1 := if 400 ≤ e.status then setKey base "4xx" clientErrorResp else base
  if 500 ≤ e.status then setKey r1 "5xx" serverErrorResp else r1

/-- `generateSecurity`: `[{bearerAuth: []}]`, modelled as the list of
required scheme names. -/
def generateSecurity (e : Endpoint) : List String :=
  if e.headers.any (fun h =>
      strIncludes (lowStr h.1) "authorization" ||
      strIncludes (lowStr h.1) "api-key" ||
      strIncludes (lowStr h.1) "token") then
    ["bearerAuth"]
  else []

/-- `generateRequestBody`. -/
structure RequestBody where
  required : Bool
  contentRef : String
deriving DecidableEq

def generateRequestBody (e : Endpoint) : RequestBody :=
  { required := true,
    contentRef := "#/components/schemas/" ++
      capitalize (extractResourceName e.pathname) ++ "Input" }

/-- One synthesized operation object. -/
structure Operation where
  operationId : String
  tags : List String
  summary : String
  description : String
  parameters : List Param
  responses : List (String × ResponseObj)
  security : List String
  requestBody : Option RequestBody := none
deriving DecidableEq

/-- One property of a generated object schema. -/
structure PropObj where
  type : String
  exampleVal : Option String := none
deriving DecidableEq

/-- One generated component schema object. -/
structure SchemaObj where
  type : String
  properties : List (String × PropObj)
  required : List String := []
deriving DecidableEq

/-- The placeholder resource schema built by `generateResponseSchema` /
`generateSchemas`. -/
def resourceSchema (resourceName : String) : SchemaObj :=
  { type := "object",
    properties :=
      [("id", { type := "string", exampleVal := some "123" }),
       ("name", { type := "string", exampleVal := some ("Example " ++ resourceName) })] }

/-- The `...Input` request-body schema. -/
def inputSchema (resourceName : String) : SchemaObj :=
  { type := "object",
    properties :=
      [("name", { type := "string", exampleVal := some ("Example " ++ resourceName) })],
    required := ["name"] }

/-- The common `Error` schema. -/
def errorSchema : SchemaObj :=
  { type := "object",
    properties :=
      [("error", { type := "string", exampleVal := some "Error message" }),
       ("code", { type := "string", exampleVal := some "ERROR_CODE" }),
       ("details", { type := "object" })] }

/-- The two mutable instance fields of the class, threaded explicitly. -/
structure GenState where
  schemaCache : List (String × SchemaObj) := []
  opIdCache : List String := []
deriving DecidableEq

/-- Fresh state, as set up by the constructor. -/
def GenState.fresh : GenState := {}

/-- The `schemaCache.set` performed inside `generateResponseSchema` (a hit
leaves the cache unchanged; both branches return the same `$ref`, so the
response content itself is cache-independent). -/
def cacheResponseSchema (e : Endpoint) (cache : List (String × SchemaObj)) :
    List (String × SchemaObj) :=
  let resource := extractResourceName e.pathname
  let schemaName := capitalize resource
  if cache.any (fun p => p.1 = schemaName) then cache
  else cache ++ [(schemaName, resourceSchema resource)]

/-- `generateOperation`: builds the operation object and performs the two
cache mutations (operation-id cache via `generateUniqueOperationId`, schema
cache via `generateResponseSchema`). -/
def generateOperation (e : Endpoint) (st : GenState) : Operation × GenState :=
  let (opId, opCache) := generateUniqueOperationId e.method e.pathname st.opIdCache
  let op : Operation :=
    { operationId := opId,
      tags := generateOperationTags e.pathname,
      summary := generateOperationSummary e,
      description := generateOperationDescr e,
      parameters := generateParameters e,
      responses := generateResponses e,
      security := generateSecurity e,
      requestBody :=
        if lowStr e.method = "post" || lowStr e.method = "put" ||
           lowStr e.method = "patch" then
          some (generateRequestBody e)
        else none }
  (op, { opIdCache := opCache, schemaCache := cacheResponseSchema e st.schemaCache })

/-- The `paths` object: template → method → operation. -/
abbrev Paths := List (String × List (String × Operation))

/-- `paths[path][method] = op` with `paths[path]` created on demand. -/
def setKey2 (P : Paths) (t m : String) (op : Operation) : Paths :=
  setKey P t (setKey ((lookupA P t).getD []) m op)

/-- `paths[path]?.[method]` read. -/
def lookup2 (P : Paths) (t m : String) : Option Operation :=
  (lookupA P t).bind (fun inner => lookupA inner m)

/-- `generatePaths`: one pass over the endpoints; each endpoint's operation
is assigned at `(normalizePath(pathname), method.toLowerCase())`,
overwriting any previous assignment at that key. -/
def generatePaths (endpoints : List Endpoint) (st : GenState) : Paths × GenState :=
  endpoints.foldl (fun acc e =>
    let path := normalizePath e.pathname
    let method := lowStr e.method
    let (op, st') := generateOperation e acc.2
    (setKey2 acc.1 path method op, st')) ([], st)

end OpenAPIGenerator

namespace OpenAPIGenerator

/-- One group from the generator's own basic `analyzeEndpoints`. -/
structure AGroup where
  name : String
  patterns : List String
deriving DecidableEq

/-- Analysis record consumed by `generateSchemas` / `generateTags`. -/
structure Analysis where
  groups : List AGroup
deriving DecidableEq

/-- The generator's basic `analyzeEndpoints`: groups normalized paths by
`path.split('/')[1] || 'default'`, keeping duplicates in `patterns`. -/
def analyzeEndpoints (endpoints : List Endpoint) : Analysis :=
  let m := endpoints.foldl (fun acc e =>
    let path := normalizePath e.pathname
    let key := match (splitSlash path).getD 1 "" with
      | "" => "default"
      | s => s
    if acc.any (fun p => p.1 = key) then
      acc.map (fun p => if p.1 = key then (p.1, p.2 ++ [path]) else p)
    else acc ++ [(key, [path])]) ([] : List (String × List String))
  { groups := m.map (fun p => { name := p.1, patterns := p.2 }) }

/-- `determineBaseURL`: protocol and hostname of the first endpoint's URL
(note: not `origin` — the port is dropped), `https://example.com` when the
list is empty or the URL does not parse. -/
def determineBaseURL (endpoints : List Endpoint) : String :=
  match endpoints.head? with
  | none => "https://example.com"
  | some e =>
      match parseURL e.url with
      | some u => u.protocol ++ "//" ++ u.hostname
      | none => "https://example.com"

/-- `generateServers`: the base URL, then — only when more than one distinct
origin was observed — every distinct origin different from the base URL. -/
def generateServers (baseURL : String) (endpoints : List Endpoint) : List String :=
  let uniqueHosts := uniqFirst (endpoints.filterMap (fun e =>
    (parseURL e.url).map URLRec.origin))
  if uniqueHosts.length > 1 then
    baseURL :: uniqueHosts.filter (fun h => h ≠ baseURL)
  else [baseURL]

structure Contact where
  name : String
  url : String
deriving DecidableEq

structure License where
  name : String
  url : String
deriving DecidableEq

structure Info where
  title : String
  version : String
  description : String
  contact : Option Contact := none
  license : Option License := none
deriving DecidableEq

/-- The options object accepted by `generateOpenAPISpec`. -/
structure Options where
  title : Option String := none
  version : Option String := none
  description : Option String := none
  contact : Option Contact := none
  license : Option License := none
  sourceUrl : Option String := none
deriving DecidableEq

/-- `generateInfo`. -/
def generateInfo (options : Options) : Info :=
  { title := options.title.getD "Discovered API",
    version := options.version.getD "0.1.0",
    description := options.description.getD
      "API discovered automatically by Chrome Extension",
    contact := some (options.contact.getD
      { name := "API Discovery Extension",
        url := "https://github.com/yourusername/chrome-api-discovery" }),
    license := some (options.license.getD
      { name := "MIT", url := "https://opensource.org/licenses/MIT" }) }

/-- `generateSchemas`: one resource schema and one `Input` schema per group
(named after the last segment of the group's first pattern), then the
common `Error` schema. -/
def generateSchemas (analysis : Analysis) : List (String × SchemaObj) :=
  let schemas := analysis.groups.foldl (fun acc g =>
    let resourceName := extractResourceName (g.patterns.headD "")
    let schemaName := capitalize resourceName
    setKey (setKey acc schemaName (resourceSchema resourceName))
      (schemaName ++ "Input") (inputSchema resourceName)) []
  setKey schemas "Error" errorSchema

/-- A security scheme declaration. -/
structure SecScheme where
  type : String
  scheme : String
  bearerFormat : String
deriving DecidableEq

/-- `generateSecuritySchemes`: declares `bearerAuth` iff some endpoint has a
header whose lowercased name contains `authorization` (only that substring —
unlike the per-operation check in `generateSecurity`). -/
def generateSecuritySchemes (endpoints : List Endpoint) : List (String × SecScheme) :=
  let hasAuth := endpoints.any (fun e =>
    e.headers.any (fun h => strIncludes (lowStr h.1) "authorization"))
  if hasAuth then
    [("bearerAuth", { type := "http", scheme := "bearer", bearerFormat := "JWT" })]
  else []

structure Components where
  schemas : List (String × SchemaObj)
  securitySchemes : Option (List (String × SecScheme)) := none
deriving DecidableEq

/-- `generateComponents`. -/
def generateComponents (endpoints : List Endpoint) (analysis : Analysis) : Components :=
  { schemas := generateSchemas analysis,
    securitySchemes := some (generateSecuritySchemes endpoints) }

structure Tag where
  name : String
  description : String
deriving DecidableEq

/-- `generateTags`. -/
def generateTags (analysis : Analysis) : List Tag :=
  analysis.groups.map (fun g =>
    let rn := extractResourceName (g.patterns.headD "")
    { name := rn, description := "Operations for " ++ rn ++ " resources" })

/-- `generateExtensions` (the `discoveryDate` timestamp is supplied by the
caller as `now`). -/
structure Extensions where
  sourceUrl : Option String := none
  totalEndpoints : Nat
  discoveryDate : String
  extensionVersion : String
deriving DecidableEq

def generateExtensions (endpoints : List Endpoint) (options : Options)
    (now : String) : Extensions :=
  { sourceUrl := options.sourceUrl,
    totalEndpoints := endpoints.length,
    discoveryDate := now,
    extensionVersion := "0.1.0" }

/-- The full output document. -/
structure OpenAPISpec where
  openapi : String
  info : Info
  servers : List String
  paths : Paths
  components : Components
  tags : List Tag
  extensions : Option Extensions := none
deriving DecidableEq

/-- `generateEmptySpec`. -/
def generateEmptySpec : OpenAPISpec :=
  { openapi := "3.0.3",
    info :=
      { title := "Discovered API", version := "0.1.0",
        description :=
          "No API endpoints discovered yet. Start discovery to generate specifications." },
    servers := ["https://example.com"],
    paths := [],
    components := { schemas := [] },
    tags := [] }

/-- `generateOpenAPISpec`: the whole synthesis pass.  The state carries the
two instance caches; `now` is the wall-clock ISO timestamp embedded in the
extensions block. -/
def generateOpenAPISpec (endpoints : List Endpoint) (options : Options)
    (now : String) (st : GenState) : OpenAPISpec × GenState :=
  if endpoints = [] then (generateEmptySpec, st)
  else
    let analysis := analyzeEndpoints endpoints
    let baseURL := determineBaseURL endpoints
    let (paths, st') := generatePaths endpoints st
    ({ openapi := "3.0.3",
       info := generateInfo options,
       servers := generateServers baseURL endpoints,
       paths := paths,
       components := generateComponents endpoints analysis,
       tags := generateTags analysis,
       extensions := some (generateExtensions endpoints options now) }, st')

end OpenAPIGenerator

/-! ## APIAnalyzer (src/lib/api-analyzer.js)

The analyzer's three `idPatterns` all replace their match — including the
trailing `(\/|$)` group — with `/{id}`.  `new URL(...)` calls in
`getEndpointGroupKey`, `groupEndpointsByPattern` and
`extractEndpointPattern` are not wrapped in try/catch, so an unparseable
URL propagates as a thrown `TypeError`, modelled as `Except.error`. -/

namespace APIAnalyzer

/-- `normalizePath`: the three consuming regex replaces, in source order
(`\/\d+(\/|$)`, `\/[a-f0-9]{8,}(\/|$)/i`, `\/[a-z0-9]{24}(\/|$)/i`), each
replacing with `/{id}`. -/
def normalizePath (path : String) : String :=
  String.mk (passC tryAlnum24 "{id}".data
    (passC tryHex8 "{id}".data
      (passC tryId "{id}".data path.data)))

/-- `getBaseUrl` (its `new URL` IS wrapped in try/catch; the catch returns
the input unchanged). -/
def getBaseUrl (url : String) : String :=
  match parseURL url with
  | some u => u.protocol ++ "//" ++ u.hostname
  | none => url

/-- The grouping key for a parsed URL: hostname plus the first two non-empty
path segments. -/
def groupKeyOf (u : URLRec) : String :=
  let segs := (splitSlash u.pathname).filter (fun s => s ≠ "")
  if segs.length ≥ 2 then u.hostname ++ segs.getD 0 "" ++ "/" ++ segs.getD 1 ""
  else if segs.length = 1 then u.hostname ++ segs.getD 0 ""
  else u.hostname

/-- `getEndpointGroupKey`: `new URL(endpoint.url)` without try/catch — an
unparseable URL throws. -/
def getEndpointGroupKey (e : Endpoint) : Except String String :=
  match parseURL e.url with
  | none => Except.error "TypeError: Invalid URL"
  | some u => Except.ok (groupKeyOf u)

/-- `extractEndpointPattern`: also parses the URL without try/catch, then
applies the `idPatterns` to the pathname. -/
def extractEndpointPattern (e : Endpoint) : Except String String :=
  match parseURL e.url with
  | none => Except.error "TypeError: Invalid URL"
  | some u => Except.ok (normalizePath u.pathname)

/-- Accumulated state of one group while grouping. -/
structure GroupAcc where
  baseUrl : String
  hostname : String
  endpoints : List Endpoint
  patterns : List String
  methods : List String
  statusCodes : List Nat
deriving DecidableEq

/-- One returned group (sets converted to arrays, count added). -/
structure Group where
  baseUrl : String
  hostname : String
  endpoints : List Endpoint
  patterns : List String
  methods : List String
  statusCodes : List Nat
  endpointCount : Nat
deriving DecidableEq

/-- One step of `groupEndpointsByPattern`'s forEach.  The repeated
`new URL(endpoint.url)` parses of the source (key, group hostname, pattern)
are performed once here; they all throw, or all succeed identically. -/
def groupStep (acc : List (String × GroupAcc)) (e : Endpoint) :
    Except String (List (String × GroupAcc)) :=
  match parseURL e.url with
  | none => Except.error "TypeError: Invalid URL"
  | some u =>
      let key := groupKeyOf u
      let pattern := normalizePath u.pathname
      let acc :=
        if acc.any (fun p => p.1 = key) then acc
        else acc ++ [(key,
          { baseUrl := getBaseUrl e.url, hostname := u.hostname,
            endpoints := [], patterns := [], methods := [], statusCodes := [] })]
      Except.ok (acc.map (fun p =>
        if p.1 = key then
          (key, { p.2 with
                  endpoints := p.2.endpoints ++ [e],
                  methods := addNew p.2.methods e.method,
                  statusCodes := addNew p.2.statusCodes e.status,
                  patterns := addNew p.2.patterns pattern })
        else p))

/-- `groupEndpointsByPattern`: group, convert, and sort by endpoint count
descending (stable). -/
def groupEndpointsByPattern (endpoints : List Endpoint) :
    Except String (List Group) := do
  let m ← endpoints.foldlM groupStep []
  pure (sortByDesc (fun g => g.endpointCount) (m.map (fun p =>
    { baseUrl := p.2.baseUrl, hostname := p.2.hostname,
      endpoints := p.2.endpoints, patterns := p.2.patterns,
      methods := p.2.methods, statusCodes := p.2.statusCodes,
      endpointCount := p.2.endpoints.length })))

/-- Scan for the version-prefix regex `\/v\d+\//i` (the input is already
lowercased). -/
def hasVerSeg : List Char → Bool
  | [] => false
  | '/' :: rest =>
      (match rest with
       | 'v' :: r2 =>
           (r2.takeWhile Char.isDigit) ≠ [] &&
           (r2.dropWhile Char.isDigit).head? = some '/'
       | _ => false) || hasVerSeg rest
  | _ :: rest => hasVerSeg rest

/-- Either of two fixed substrings (for the `xs?/` plural resource regexes). -/
def inc2 (u : String) (a b : String) : Bool := strIncludes u a || strIncludes u b

/-- The `resourcePatterns` table, in source order; each matcher receives the
lowercased URL (so the `i` flags are absorbed). -/
def resourceMatchers : List (String → Bool) :=
  [fun u => inc2 u "/user/" "/users/",
   fun u => inc2 u "/post/" "/posts/",
   fun u => inc2 u "/article/" "/articles/",
   fun u => inc2 u "/product/" "/products/",
   fun u => inc2 u "/order/" "/orders/",
   fun u => inc2 u "/comment/" "/comments/",
   fun u => inc2 u "/file/" "/files/",
   fun u => inc2 u "/image/" "/images/",
   fun u => inc2 u "/video/" "/videos/",
   fun u => inc2 u "/categorie/" "/categories/",
   fun u => inc2 u "/tag/" "/tags/",
   fun u => strIncludes u "/search",
   fun u => strIncludes u "/auth",
   fun u => strIncludes u "/login",
   fun u => strIncludes u "/logout",
   fun u => strIncludes u "/register",
   fun u => strIncludes u "/profile",
   fun u => strIncludes u "/settings",
   fun u => strIncludes u "/admin",
   fun u => strIncludes u "/api/",
   fun u => strIncludes u "/rest/",
   fun u => hasVerSeg u.data,
   fun u => strIncludes u "/graphql"]

/-- Result of `detectResourceType`: the source iterates
`resourcePatterns.entries()` — entries of an *array* — so a match returns
the numeric index; no match returns the string `"unknown"`. -/
inductive RType where
  | idx (n : Nat)
  | unknown
deriving DecidableEq

/-- `detectResourceType`. -/
def detectResourceType (e : Endpoint) : RType :=
  match (resourceMatchers.enum).find? (fun p => p.2 (lowStr e.url)) with
  | some p => RType.idx p.1
  | none => RType.unknown

/-- JS truthiness of a `detectResourceType` result (`0` is falsy,
other indices and `"unknown"` are truthy). -/
def RType.truthy : RType → Bool
  | RType.idx 0 => false
  | _ => true

/-- The `patterns` record produced by `extractCommonPatterns`, each table
sorted descending by count. -/
structure CommonPatterns where
  commonPaths : List (String × Nat)
  commonQueryParams : List (String × Nat)
  commonHeaders : List (String × Nat)
  resourceTypes : List (RType × Nat)
deriving DecidableEq

/-- `extractCommonPatterns` (calls `extractEndpointPattern`, hence can
throw). -/
def extractCommonPatterns (endpoints : List Endpoint) :
    Except String CommonPatterns := do
  let acc ← endpoints.foldlM (fun acc e => do
    let path ← extractEndpointPattern e
    let cp := incKey acc.1 path
    let cq := e.searchParams.foldl (fun m nv => incKey m nv.1) acc.2.1
    let ch := e.headers.foldl (fun m nv => incKey m nv.1) acc.2.2.1
    let rt := detectResourceType e
    let cr := if rt.truthy then incKey acc.2.2.2 rt else acc.2.2.2
    pure (cp, cq, ch, cr))
    (([], [], [], []) :
      List (String × Nat) × List (String × Nat) × List (String × Nat) ×
      List (RType × Nat))
  pure { commonPaths := sortByDesc (fun p => p.2) acc.1,
         commonQueryParams := sortByDesc (fun p => p.2) acc.2.1,
         commonHeaders := sortByDesc (fun p => p.2) acc.2.2.1,
         resourceTypes := sortByDesc (fun p => p.2) acc.2.2.2 }

/-- The `statistics` record.  `averageResponseSize` is an exact rational
(the JS float division is exact for the integral sizes at stake); the time
range keeps ISO timestamps, whose `Date` order coincides with the
lexicographic string order used here. -/
structure Statistics where
  totalEndpoints : Nat
  uniqueHosts : List String
  methods : List (String × Nat)
  statusCodes : List (Nat × Nat)
  contentTypes : List (String × Nat)
  averageResponseSize : Rat
  timeEarliest : Option String := none
  timeLatest : Option String := none
deriving DecidableEq

/-- `generateStatistics`: a single pass; the host-count `new URL` *is*
wrapped in try/catch, so this function is total. -/
def generateStatistics (endpoints : List Endpoint) : Statistics :=
  let acc := endpoints.foldl (fun acc e =>
    let hosts := match parseURL e.url with
      | some u => addNew acc.1 u.hostname
      | none => acc.1
    let methods := incKey acc.2.1 e.method
    let statuses := incKey acc.2.2.1 e.status
    let ctypes :=
      if e.contentType ≠ "" && e.contentType ≠ "unknown" then
        incKey acc.2.2.2.1 e.contentType
      else acc.2.2.2.1
    let total := acc.2.2.2.2.1 + e.responseSize
    let (earliest, latest) := acc.2.2.2.2.2
    let (earliest, latest) :=
      if e.timestamp ≠ "" then
        (match earliest with
          | none => some e.timestamp
          | some cur => if e.timestamp < cur then some e.timestamp else some cur,
         match latest with
          | none => some e.timestamp
          | some cur => if cur < e.timestamp then some e.timestamp else some cur)
      else (earliest, latest)
    (hosts, methods, statuses, ctypes, total, earliest, latest))
    (([], [], [], [], 0, none, none) :
      List String × List (String × Nat) × List (Nat × Nat) ×
      List (String × Nat) × Nat × Option String × Option String)
  { totalEndpoints := endpoints.length,
    uniqueHosts := acc.1,
    methods := sortByDesc (fun p => p.2) acc.2.1,
    statusCodes := sortByDesc (fun p => p.2) acc.2.2.1,
    contentTypes := sortByDesc (fun p => p.2) acc.2.2.2.1,
    averageResponseSize :=
      if endpoints.length > 0 then
        (acc.2.2.2.2.1 : Rat) / (endpoints.length : Rat)
      else 0,
    timeEarliest := acc.2.2.2.2.2.1,
    timeLatest := acc.2.2.2.2.2.2 }

/-- Sample classification of `inferParameterTypes`: boolean literal, then
JS-numeric and non-empty, then string. -/
def classifySample (s : String) : String :=
  if s = "true" || s = "false" then "boolean"
  else if jsIsNumeric s && s ≠ "" then "number"
  else "string"

/-- The object returned by `inferParameterTypes` (`anyOf` holds the type
strings of its `{type}` entries). -/
structure InferredType where
  type : String
  exampleVal : Option String := none
  anyOf : Option (List String) := none
  examples : Option (List String) := none
deriving DecidableEq

/-- `inferParameterTypes`: insertion-ordered `Set`s of types and values;
one type → that type plus the first distinct value as example; several
types → `string` with `anyOf` and at most three example values. -/
def inferParameterTypes (samples : List String) : InferredType :=
  if samples = [] then { type := "string" }
  else
    let types := samples.foldl (fun acc s => addNew acc (classifySample s)) []
    let uniqueValues := samples.foldl addNew []
    if types.length = 1 then
      { type := types.headD "string", exampleVal := uniqueValues.head? }
    else
      { type := "string", anyOf := some types,
        examples := some (uniqueValues.take 3) }

/-- The full `analyze` result (empty input yields empty groups and empty
`patterns`/`statistics` objects, modelled as `none`). -/
structure AnalysisResult where
  groups : List Group
  patterns : Option CommonPatterns := none
  statistics : Option Statistics := none
deriving DecidableEq

/-- `analyzeEndpoints`: groups first — so a malformed URL throws before any
statistics are produced. -/
def analyzeEndpoints (endpoints : List Endpoint) : Except String AnalysisResult :=
  if endpoints = [] then Except.ok { groups := [] }
  else do
    let groups ← groupEndpointsByPattern endpoints
    let patterns ← extractCommonPatterns endpoints
    pure { groups := groups, patterns := some patterns,
           statistics := some (generateStatistics endpoints) }

end APIAnalyzer

/-! ## Utils (src/lib/openapi-generator.js, class Utils) -/

namespace Utils

/-! A JSON-like JavaScript value (numbers carried as integers: no numeric
arithmetic is performed on them by the sanitizer).  Arrays and objects are
given as a mutual family so that the sanitizer is plain structural
recursion. -/

mutual

/-- One JavaScript value. -/
inductive JSVal where
  | jstr (s : String)
  | jnum (n : Int)
  | jbool (b : Bool)
  | jnull
  | jarr (items : JSList)
  | jobj (fields : JSFields)

/-- The element list of a JS array value. -/
inductive JSList where
  | nil
  | cons (head : JSVal) (tail : JSList)

/-- The key/value field list of a JS object value. -/
inductive JSFields where
  | nil
  | cons (key : String) (val : JSVal) (tail : JSFields)

end

/-- The `defaultSensitiveKeys` list. -/
def defaultSensitiveKeys : List String :=
  ["authorization", "cookie", "set-cookie", "x-api-key", "x-csrf-token",
   "x-auth-token", "x-access-token", "x-refresh-token", "x-session-id",
   "password", "secret", "token", "key", "credential"]

/-- Whether a key name is sensitive w.r.t. a key list:
`allSensitiveKeys.some(s => key.toLowerCase().includes(s))`. -/
def isSensKey (ks : List String) (k : String) : Bool :=
  ks.any (fun s => strIncludes (lowStr k) s)

mutual

/-- `sanitizeSensitiveData(data, sensitiveKeys)`: scalars pass through;
arrays and objects recurse with `allSensitiveKeys = defaults ++ sensitiveKeys`
passed down as the next level's `sensitiveKeys`; a field whose lowercased
name contains a sensitive substring becomes the string `"[REDACTED]"`. -/
def sanitizeSensitiveData : JSVal → List String → JSVal
  | JSVal.jstr s, _ => JSVal.jstr s
  | JSVal.jnum n, _ => JSVal.jnum n
  | JSVal.jbool b, _ => JSVal.jbool b
  | JSVal.jnull, _ => JSVal.jnull
  | JSVal.jarr items, sensitiveKeys =>
      JSVal.jarr (sanitizeList items (defaultSensitiveKeys ++ sensitiveKeys))
  | JSVal.jobj fields, sensitiveKeys =>
      JSVal.jobj (sanitizeFields fields (defaultSensitiveKeys ++ sensitiveKeys))

/-- Array recursion of the sanitizer (`data.map(item => ...)`). -/
def sanitizeList : JSList → List String → JSList
  | JSList.nil, _ => JSList.nil
  | JSList.cons x xs, ks => JSList.cons (sanitizeSensitiveData x ks) (sanitizeList xs ks)

/-- Object-field recursion of the sanitizer; `ks` is the `allSensitiveKeys`
of the enclosing object. -/
def sanitizeFields : JSFields → List String → JSFields
  | JSFields.nil, _ => JSFields.nil
  | JSFields.cons k v rest, ks =>
      JSFields.cons k
        (if isSensKey ks k then JSVal.jstr "[REDACTED]"
         else
           match v with
           | JSVal.jobj _ => sanitizeSensitiveData v ks
           | JSVal.jarr _ => sanitizeSensitiveData v ks
           | w => w)
        (sanitizeFields rest ks)

end

end Utils

/-! ## Specification-side definitions

These state claims of the specification in its own terms, for comparison
with the source embeddings above. -/

/-- A well-formed path segment: non-empty and slash-free. -/
def wfseg (s : List Char) : Prop := s ≠ [] ∧ '/' ∉ s

/-- The path `/s1/s2/.../sn` assembled from its segments. -/
def pathOf : List (List Char) → List Char
  | [] => []
  | s :: rest => '/' :: (s ++ pathOf rest)

/-- The per-segment templating rule of the specification (with the hex
shapes matched case-insensitively, as the source regexes' `i` flag does):
an all-digit segment becomes `{id}`, an 8-4-4-4-12 hex UUID becomes
`{uuid}`, 24 hex characters become `{objectId}`, anything else stays
literal — tried in that priority order. -/
def segTemplate (s : List Char) : List Char :=
  if s ≠ [] && s.all isDigitC then "{id}".data
  else if uuidShape s then "{uuid}".data
  else if s.length = 24 && s.all isHexCI then "{objectId}".data
  else s

/-- One Synthesizer pass as a per-segment substitution. -/
def segSub (segMatch : List Char → Bool) (repl : List Char) (s : List Char) : List Char :=
  if segMatch s then repl else s

/-- Whether an observation lands on the `(template, method)` key. -/
def keyedBy (e : Endpoint) (t m : String) : Bool :=
  OpenAPIGenerator.normalizePath e.pathname = t && lowStr e.method = m

/-- The last observation with the given `(template, method)` key. -/
def lastKeyed (es : List Endpoint) (t m : String) : Option Endpoint :=
  (es.filter (fun e => keyedBy e t m)).getLast?

/-- No duplicate path keys and no duplicate method keys inside any path. -/
def pathsWellFormed (P : OpenAPIGenerator.Paths) : Prop :=
  (P.map (fun pr => pr.1)).Nodup ∧ ∀ pr ∈ P, (pr.2.map (fun mo => mo.1)).Nodup

/-- All `$ref` strings reachable under one operation (response contents and
the request body). -/
def opRefs (op : OpenAPIGenerator.Operation) : List String :=
  (op.responses.map (fun r => r.2.content.map (fun c => c.2))).flatten ++
    (match op.requestBody with
     | some rb => [rb.contentRef]
     | none => [])

/-- All `$ref` strings reachable anywhere under `paths`. -/
def pathsRefs (P : OpenAPIGenerator.Paths) : List String :=
  (P.map (fun pr => (pr.2.map (fun mo => opRefs mo.2)).flatten)).flatten

/-- The distinct origins of the parseable observation URLs. -/
def originsOf (endpoints : List Endpoint) : List String :=
  endpoints.filterMap (fun e => (parseURL e.url).map URLRec.origin)

/-- What the claim states about one `inferParameterTypes` result. -/
def inferSpec (samples : List String) (r : APIAnalyzer.InferredType) : Prop :=
  (r.anyOf = none →
    (∀ s ∈ samples, APIAnalyzer.classifySample s = r.type) ∧
    r.exampleVal = samples.head?) ∧
  (∀ tl, r.anyOf = some tl →
    r.type = "string" ∧ tl.Nodup ∧ 2 ≤ tl.length ∧
    (∀ ty, ty ∈ tl ↔ ∃ s ∈ samples, APIAnalyzer.classifySample s = ty)) ∧
  (∀ exl, r.examples = some exl →
    exl.length ≤ 3 ∧ exl.Nodup ∧ ∀ v ∈ exl, v ∈ samples)

namespace Utils

mutual

/-- Whether two values differ at most in the values stored under
sensitive-named keys, relative to the extra key list `ks` (the key lists
grow level by level exactly as in `sanitizeSensitiveData`). -/
def sameButSensitive : JSVal → JSVal → List String → Bool
  | JSVal.jstr a, JSVal.jstr b, _ => a == b
  | JSVal.jnum a, JSVal.jnum b, _ => a == b
  | JSVal.jbool a, JSVal.jbool b, _ => a == b
  | JSVal.jnull, JSVal.jnull, _ => true
  | JSVal.jarr xs, JSVal.jarr ys, ks =>
      sameButSensList xs ys (defaultSensitiveKeys ++ ks)
  | JSVal.jobj fs, JSVal.jobj gs, ks =>
      sameButSensFields fs gs (defaultSensitiveKeys ++ ks)
  | _, _, _ => false

/-- Pointwise `sameButSensitive` on array elements. -/
def sameButSensList : JSList → JSList → List String → Bool
  | JSList.nil, JSList.nil, _ => true
  | JSList.cons x xs, JSList.cons y ys, ks =>
      sameButSensitive x y ks && sameButSensList xs ys ks
  | _, _, _ => false

/-- Fieldwise agreement: equal keys, and equal values except under a
sensitive key, where the two values are unconstrained. -/
def sameButSensFields : JSFields → JSFields → List String → Bool
  | JSFields.nil, JSFields.nil, _ => true
  | JSFields.cons k v fs, JSFields.cons k' w gs, ks =>
      k == k' && (isSensKey ks k || sameButSensitive v w ks) &&
        sameButSensFields fs gs ks
  | _, _, _ => false

end

end Utils

/-! ## Concrete observations used by witnesses and counterexamples -/

/-- `GET https://api.x.com/users/42 → 200` (claim C3's scenario). -/
def obsUsers42 : Endpoint :=
  { url := "https://api.x.com/users/42", method := "GET", status := 200,
    contentType := "application/json", pathname := "/users/42" }

/-- `GET https://api.x.com/users/43 → 200` (claim C3's scenario). -/
def obsUsers43 : Endpoint :=
  { url := "https://api.x.com/users/43", method := "GET", status := 200,
    contentType := "application/json", pathname := "/users/43" }

/-- `GET https://api.x.com/items/7 → 200`. -/
def obsItems200 : Endpoint :=
  { url := "https://api.x.com/items/7", method := "GET", status := 200,
    contentType := "application/json", pathname := "/items/7" }

/-- `GET https://api.x.com/items/8 → 404`, same `(template, method)` key as
`obsItems200`. -/
def obsItems404 : Endpoint :=
  { url := "https://api.x.com/items/8", method := "GET", status := 404,
    contentType := "application/json", pathname := "/items/8" }

/-- An observation whose URL does not parse. -/
def obsBadUrl : Endpoint := { url := "not a url", method := "GET", status := 200 }

/-- An observation carrying an `x-api-key` header. -/
def obsApiKey : Endpoint :=
  { url := "https://a.com/x", method := "GET", status := 200,
    pathname := "/x", headers := [("x-api-key", "k")] }

/-- An observation whose URL carries a non-default port. -/
def obsPort : Endpoint :=
  { url := "https://api.x.com:8443/a", method := "GET", status := 200,
    pathname := "/a" }

/-- A sample object holding a secret. -/
def sampleSecretA : Utils.JSVal :=
  Utils.JSVal.jobj (Utils.JSFields.cons "password" (Utils.JSVal.jstr "hunter2")
    (Utils.JSFields.cons "meta"
      (Utils.JSVal.jobj (Utils.JSFields.cons "api-key" (Utils.JSVal.jstr "k1")
        (Utils.JSFields.cons "name" (Utils.JSVal.jstr "alice") Utils.JSFields.nil)))
      Utils.JSFields.nil))

/-- The same object with different secret values. -/
def sampleSecretB : Utils.JSVal :=
  Utils.JSVal.jobj (Utils.JSFields.cons "password" (Utils.JSVal.jstr "s3cr3t")
    (Utils.JSFields.cons "meta"
      (Utils.JSVal.jobj (Utils.JSFields.cons "api-key" (Utils.JSVal.jnum 7)
        (Utils.JSFields.cons "name" (Utils.JSVal.jstr "alice") Utils.JSFields.nil)))
      Utils.JSFields.nil))

/-! ## Helper lemmas -/

theorem natDigsF_fuel : ∀ f1 f2 n, 0 < f1 → 0 < f2 → n < 10 ^ f1 → n < 10 ^ f2 →
    natDigsF f1 n = natDigsF f2 n := by
  intro f1
  induction f1 with
  | zero => intro f2 n h1; omega
  | succ k ih =>
      intro f2 n _ hf2 h1 h2
      match f2 with
      | 0 => omega
      | j + 1 =>
          show natDigsF (k + 1) n = natDigsF (j + 1) n
          unfold natDigsF
          by_cases hn : n < 10
          · simp [hn]
          · simp only [hn, if_false]
            have hk : n / 10 < 10 ^ k := by
              rw [Nat.div_lt_iff_lt_mul (by omega)]
              calc n < 10 ^ (k + 1) := h1
              _ = 10 ^ k * 10 := by ring
            have hj : n / 10 < 10 ^ j := by
              rw [Nat.div_lt_iff_lt_mul (by omega)]
              calc n < 10 ^ (j + 1) := h2
              _ = 10 ^ j * 10 := by ring
            have hkpos : 0 < k := by
              by_contra hk0
              have hk0 : k = 0 := by omega
              subst hk0
              norm_num at h1
              omega
            have hjpos : 0 < j := by
              by_contra hj0
              have hj0 : j = 0 := by omega
              subst hj0
              norm_num at h2
              omega
            rw [ih j (n / 10) hkpos hjpos hk hj]

theorem lt_ten_pow_self (n : Nat) : n < 10 ^ (n + 1) := by
  have := Nat.lt_pow_self (show 1 < 10 by omega) (n + 1)
  omega

theorem natDigs_ne_nil (n : Nat) : natDigs n ≠ [] := by
  unfold natDigs natDigsF
  split
  · simp
  · simp

theorem natDigsF_len_ge :
    ∀ fuel m n, n < 10 ^ fuel → 10 ^ m ≤ n → m + 1 ≤ (natDigsF fuel n).length := by
  intro fuel
  induction fuel with
  | zero =>
      intro m n h1 h2
      have hp : (10 : Nat) ^ m ≥ 1 := Nat.one_le_pow _ _ (by omega)
      have h0 : (10 : Nat) ^ 0 = 1 := by norm_num
      rw [h0] at h1
      omega
  | succ k ih =>
      intro m n h1 h2
      unfold natDigsF
      by_cases hn : n < 10
      · have hm : m = 0 := by
          by_contra hm0
          have : 10 ^ 1 ≤ 10 ^ m := Nat.pow_le_pow_right (by omega) (by omega)
          simp at this
          omega
        simp [hn, hm]
      · simp only [hn, if_false, List.length_append, List.length_cons, List.length_nil]
        match m with
        | 0 => omega
        | j + 1 =>
            have hk : n / 10 < 10 ^ k := by
              rw [Nat.div_lt_iff_lt_mul (by omega)]
              calc n < 10 ^ (k + 1) := h1
              _ = 10 ^ k * 10 := by ring
            have hj : 10 ^ j ≤ n / 10 := by
              rw [Nat.le_div_iff_mul_le (by omega)]
              calc 10 ^ j * 10 = 10 ^ (j + 1) := by ring
              _ ≤ n := h2
            have := ih j (n / 10) hk hj
            omega

theorem natDigs_len_ge (m : Nat) : ∀ n, 10 ^ m ≤ n → m + 1 ≤ (natDigs n).length := by
  intro n hn
  exact natDigsF_len_ge (n + 1) m n (lt_ten_pow_self n) hn

theorem passNCF_fuel (tryFn : List Char → Option Nat) (repl : List Char) :
    ∀ f1 f2 l, l.length ≤ f1 → l.length ≤ f2 →
      passNCF tryFn repl f1 l = passNCF tryFn repl f2 l := by
  intro f1
  induction f1 with
  | zero =>
      intro f2 l h1 _
      have : l = [] := List.length_eq_zero.mp (by omega)
      subst this
      cases f2 <;> rfl
  | succ k ih =>
      intro f2 l h1 h2
      cases l with
      | nil => cases f2 <;> rfl
      | cons c rest =>
        cases f2 with
        | zero => simp at h2
        | succ j =>
          simp only [List.length_cons] at h1 h2
          show passNCF tryFn repl (k + 1) (c :: rest) = passNCF tryFn repl (j + 1) (c :: rest)
          unfold passNCF
          by_cases hc : c = '/'
          · simp only [hc, if_true]
            cases htry : tryFn rest with
            | some n =>
                have hd : (rest.drop n).length ≤ rest.length := by
                  simp [List.length_drop]
                show ('/' :: repl) ++ passNCF tryFn repl k (rest.drop n) =
                  ('/' :: repl) ++ passNCF tryFn repl j (rest.drop n)
                rw [ih j (rest.drop n) (by omega) (by omega)]
            | none =>
                show '/' :: passNCF tryFn repl k rest = '/' :: passNCF tryFn repl j rest
                rw [ih j rest (by omega) (by omega)]
          · simp only [hc, if_false]
            rw [ih j rest (by omega) (by omega)]

theorem passCF_fuel (tryFn : List Char → Option Nat) (repl : List Char) :
    ∀ f1 f2 l, l.length ≤ f1 → l.length ≤ f2 →
      passCF tryFn repl f1 l = passCF tryFn repl f2 l := by
  intro f1
  induction f1 with
  | zero =>
      intro f2 l h1 _
      have : l = [] := List.length_eq_zero.mp (by omega)
      subst this
      cases f2 <;> rfl
  | succ k ih =>
      intro f2 l h1 h2
      cases l with
      | nil => cases f2 <;> rfl
      | cons c rest =>
        cases f2 with
        | zero => simp at h2
        | succ j =>
          simp only [List.length_cons] at h1 h2
          show passCF tryFn repl (k + 1) (c :: rest) = passCF tryFn repl (j + 1) (c :: rest)
          unfold passCF
          by_cases hc : c = '/'
          · simp only [hc, if_true]
            cases htry : tryFn rest with
            | some n =>
                have hd : ((rest.drop n).drop 1).length ≤ rest.length := by
                  simp [List.length_drop]
                show ('/' :: repl) ++ passCF tryFn repl k ((rest.drop n).drop 1) =
                  ('/' :: repl) ++ passCF tryFn repl j ((rest.drop n).drop 1)
                rw [ih j ((rest.drop n).drop 1) (by omega) (by omega)]
            | none =>
                show '/' :: passCF tryFn repl k rest = '/' :: passCF tryFn repl j rest
                rw [ih j rest (by omega) (by omega)]
          · simp only [hc, if_false]
            rw [ih j rest (by omega) (by omega)]

theorem passNC_nil (tryFn : List Char → Option Nat) (repl : List Char) :
    passNC tryFn repl [] = [] := rfl

/-- Unfolding equation for `passNC` on a cons cell. -/
theorem passNC_cons (tryFn : List Char → Option Nat) (repl : List Char)
    (c : Char) (rest : List Char) :
    passNC tryFn repl (c :: rest) =
      (if c = '/' then
        match tryFn rest with
        | some n => ('/' :: repl) ++ passNC tryFn repl (rest.drop n)
        | none => '/' :: passNC tryFn repl rest
      else c :: passNC tryFn repl rest) := by
  show passNCF tryFn repl (rest.length + 1) (c :: rest) = _
  unfold passNCF
  by_cases hc : c = '/'
  · simp only [hc, if_true]
    cases htry : tryFn rest with
    | some n =>
        show ('/' :: repl) ++ passNCF tryFn repl rest.length (rest.drop n) =
          ('/' :: repl) ++ passNC tryFn repl (rest.drop n)
        have h : passNCF tryFn repl rest.length (rest.drop n) =
            passNCF tryFn repl (rest.drop n).length (rest.drop n) := by
          apply passNCF_fuel
          · simp [List.length_drop]
          · omega
        rw [h]
        rfl
    | none =>
        show '/' :: passNCF tryFn repl rest.length rest = '/' :: passNC tryFn repl rest
        rfl
  · simp only [hc, if_false]
    rfl

theorem passC_nil (tryFn : List Char → Option Nat) (repl : List Char) :
    passC tryFn repl [] = [] := rfl

/-- Unfolding equation for `passC` on a cons cell. -/
theorem passC_cons (tryFn : List Char → Option Nat) (repl : List Char)
    (c : Char) (rest : List Char) :
    passC tryFn repl (c :: rest) =
      (if c = '/' then
        match tryFn rest with
        | some n => ('/' :: repl) ++ passC tryFn repl ((rest.drop n).drop 1)
        | none => '/' :: passC tryFn repl rest
      else c :: passC tryFn repl rest) := by
  show passCF tryFn repl (rest.length + 1) (c :: rest) = _
  unfold passCF
  by_cases hc : c = '/'
  · simp only [hc, if_true]
    cases htry : tryFn rest with
    | some n =>
        show ('/' :: repl) ++ passCF tryFn repl rest.length ((rest.drop n).drop 1) =
          ('/' :: repl) ++ passC tryFn repl ((rest.drop n).drop 1)
        have h : passCF tryFn repl rest.length ((rest.drop n).drop 1) =
            passCF tryFn repl ((rest.drop n).drop 1).length ((rest.drop n).drop 1) := by
          apply passCF_fuel
          · simp [List.length_drop]
          · omega
        rw [h]
        rfl
    | none =>
        show '/' :: passCF tryFn repl rest.length rest = '/' :: passC tryFn repl rest
        rfl
  · simp only [hc, if_false]
    rfl

/-! ## Claim theorems: counterexamples and concrete evaluations -/

/-- C1 (counterexample): two observations of the same `(template, method)`
key with statuses 200 then 404 leave a response map with keys `404` and
`4xx` only — the earlier observation's `200` entry is lost, refuting the
claim that the per-key response map keeps one entry per distinct status
observed across all contributing observations. -/
theorem C1_status_lost_counterexample :
    (OpenAPIGenerator.lookup2
        (OpenAPIGenerator.generatePaths [obsItems200, obsItems404]
          OpenAPIGenerator.GenState.fresh).1 "/items/{id}" "get").map
      (fun op => op.responses.map (fun r => r.1)) = some ["404", "4xx"] ∧
    ¬ ((OpenAPIGenerator.lookup2
        (OpenAPIGenerator.generatePaths [obsItems200, obsItems404]
          OpenAPIGenerator.GenState.fresh).1 "/items/{id}" "get").map
      (fun op => op.responses.map (fun r => r.1)) = some ["200", "404", "4xx"]) := by
  constructor
  · decide
  · decide

/-- C2 (counterexample): on the 24-hex path `/507f1f77bcf86cd799439011` the
Pattern Analyzer's templating function yields `/{id}` while the
Specification Synthesizer's yields `/{objectId}` — the two templating
functions do not compute the same template. -/
theorem C2_templating_divergence_counterexample :
    APIAnalyzer.normalizePath "/507f1f77bcf86cd799439011" = "/{id}" ∧
    OpenAPIGenerator.normalizePath "/507f1f77bcf86cd799439011" = "/{objectId}" ∧
    APIAnalyzer.normalizePath "/507f1f77bcf86cd799439011" ≠
      OpenAPIGenerator.normalizePath "/507f1f77bcf86cd799439011" := by
  refine ⟨by decide, by decide, by decide⟩

/-- C3 (counterexample): the claim's own scenario — `GET /users/42` then
`GET /users/43` — synthesizes one `get` operation at `/users/{id}` whose
`operationId` is `get43` (built from the last observation's raw pathname),
not `getUsers`. -/
theorem C3_operation_id_counterexample :
    (OpenAPIGenerator.lookup2
        (OpenAPIGenerator.generatePaths [obsUsers42, obsUsers43]
          OpenAPIGenerator.GenState.fresh).1 "/users/{id}" "get").map
      (fun op => op.operationId) = some "get43" ∧
    ("get43" : String) ≠ "getUsers" := by
  refine ⟨by decide, by decide⟩

/-- C4 (code bug): for the single observation `GET /users/42`, the response
schema under `paths` is `$ref: #/components/schemas/42` (named after the raw
last path segment), while `components.schemas` only declares `{id}`,
`{id}Input` and `Error` (named after the templated path) — the reference
does not resolve, contradicting the invariant. -/
theorem C4_dangling_ref_bug :
    ("#/components/schemas/42" ∈ pathsRefs
      (OpenAPIGenerator.generateOpenAPISpec [obsUsers42] {} "2024-01-01T00:00:00.000Z"
        OpenAPIGenerator.GenState.fresh).1.paths) ∧
    ((OpenAPIGenerator.generateOpenAPISpec [obsUsers42] {} "2024-01-01T00:00:00.000Z"
        OpenAPIGenerator.GenState.fresh).1.components.schemas.map (fun p => p.1) =
      ["{id}", "{id}Input", "Error"]) ∧
    lookupA (OpenAPIGenerator.generateOpenAPISpec [obsUsers42] {} "2024-01-01T00:00:00.000Z"
        OpenAPIGenerator.GenState.fresh).1.components.schemas "42" = none := by
  refine ⟨by decide, by decide, by decide⟩

/-- C6 (code bug): an observation with an unparseable URL makes
`APIAnalyzer.analyzeEndpoints` throw (the `new URL` in
`getEndpointGroupKey` is not wrapped in try/catch), so no statistics are
produced — even though `generateStatistics` alone would have counted the
method and status, and the Synthesizer still yields a structurally valid
document with the fallback server. -/
theorem C6_analyzer_throws_bug :
    APIAnalyzer.analyzeEndpoints [obsBadUrl] =
      Except.error "TypeError: Invalid URL" ∧
    (APIAnalyzer.generateStatistics [obsBadUrl]).methods = [("GET", 1)] ∧
    (APIAnalyzer.generateStatistics [obsBadUrl]).statusCodes = [(200, 1)] ∧
    (OpenAPIGenerator.generateOpenAPISpec [obsBadUrl] {} "2024-01-01T00:00:00.000Z"
      OpenAPIGenerator.GenState.fresh).1.openapi = "3.0.3" ∧
    (OpenAPIGenerator.generateOpenAPISpec [obsBadUrl] {} "2024-01-01T00:00:00.000Z"
      OpenAPIGenerator.GenState.fresh).1.servers = ["https://example.com"] := by
  refine ⟨rfl, by decide, by decide, by decide, by decide⟩

/-- C7 (counterexample): an observation carrying only an `x-api-key` header
produces an operation marked `security: [{bearerAuth: []}]`, yet the
document declares no `bearerAuth` scheme (`generateSecuritySchemes` only
looks for `authorization`) — refuting "declares the scheme iff at least one
operation is so marked". -/
theorem C7_scheme_declaration_counterexample :
    OpenAPIGenerator.generateSecurity obsApiKey = ["bearerAuth"] ∧
    OpenAPIGenerator.generateSecuritySchemes [obsApiKey] = [] := by
  refine ⟨by decide, by decide⟩

/-- C9 (counterexample): for a first (and only) observation at
`https://api.x.com:8443/a` the server list is `["https://api.x.com"]` —
`protocol//hostname` with the port dropped — while the observation's origin
is `https://api.x.com:8443`, refuting "the first entry is the origin of the
first observation". -/
theorem C9_origin_counterexample :
    OpenAPIGenerator.generateServers (OpenAPIGenerator.determineBaseURL [obsPort])
      [obsPort] = ["https://api.x.com"] ∧
    (parseURL obsPort.url).map URLRec.origin = some "https://api.x.com:8443" ∧
    ("https://api.x.com" : String) ≠ "https://api.x.com:8443" := by
  refine ⟨by decide, by decide, by decide⟩

/-- C7 (amended): an operation is marked `[{bearerAuth: []}]` iff some
header name of the observation contains (lowercased) `authorization`,
`api-key` or `token`; but the document declares the `bearerAuth` scheme iff
some observation has a header containing `authorization` alone — not iff
some operation is marked. -/
theorem C7_security_inference :
    ∀ (e : Endpoint) (es : List Endpoint),
      (OpenAPIGenerator.generateSecurity e = ["bearerAuth"] ↔
        ∃ h ∈ e.headers,
          (strIncludes (lowStr h.1) "authorization" ||
           strIncludes (lowStr h.1) "api-key" ||
           strIncludes (lowStr h.1) "token") = true) ∧
      (OpenAPIGenerator.generateSecuritySchemes es ≠ [] ↔
        ∃ e' ∈ es, ∃ h ∈ e'.headers,
          strIncludes (lowStr h.1) "authorization" = true) := by
  intro e es
  constructor
  · unfold OpenAPIGenerator.generateSecurity
    by_cases hc : (e.headers.any (fun h =>
        strIncludes (lowStr h.1) "authorization" ||
        strIncludes (lowStr h.1) "api-key" ||
        strIncludes (lowStr h.1) "token")) = true
    · simp only [hc, if_true]
      simp only [List.any_eq_true] at hc
      exact ⟨fun _ => hc, fun _ => by simp⟩
    · simp only [hc, if_false]
      constructor
      · intro habs
        exact absurd habs (by simp)
      · intro hex
        exact absurd (List.any_eq_true.mpr hex) hc
  · unfold OpenAPIGenerator.generateSecuritySchemes
    by_cases hc : (es.any (fun e' =>
        e'.headers.any (fun h => strIncludes (lowStr h.1) "authorization"))) = true
    · simp only [hc, if_true]
      simp only [List.any_eq_true] at hc
      exact ⟨fun _ => hc, fun _ => by simp⟩
    · simp only [hc, if_false]
      constructor
      · intro habs
        exact absurd rfl habs
      · intro ⟨e', he', h, hh, hauth⟩
        exact absurd (List.any_eq_true.mpr ⟨e', he', List.any_eq_true.mpr ⟨h, hh, hauth⟩⟩) hc

theorem mem_addNew {α : Type} [DecidableEq α] (acc : List α) (y x : α) :
    x ∈ addNew acc y ↔ x ∈ acc ∨ x = y := by
  unfold addNew
  by_cases hy : y ∈ acc
  · simp only [hy, if_true]
    constructor
    · exact fun h => Or.inl h
    · rintro (h | h)
      · exact h
      · exact h ▸ hy
  · simp [hy]

theorem addNew_nodup {α : Type} [DecidableEq α] (acc : List α) (y : α)
    (h : acc.Nodup) : (addNew acc y).Nodup := by
  unfold addNew
  by_cases hy : y ∈ acc
  · simpa [hy]
  · simp [hy, List.nodup_append, h]

theorem addNew_ne_nil {α : Type} [DecidableEq α] (acc : List α) (y : α) :
    addNew acc y ≠ [] := by
  unfold addNew
  by_cases hy : y ∈ acc
  · simp only [hy, if_true]
    intro h
    rw [h] at hy
    exact absurd hy (List.not_mem_nil y)
  · simp [hy]

theorem addNew_head {α : Type} [DecidableEq α] (acc : List α) (y : α)
    (h : acc ≠ []) : (addNew acc y).head? = acc.head? := by
  unfold addNew
  by_cases hy : y ∈ acc
  · simp [hy]
  · simp only [hy, if_false]
    cases acc with
    | nil => exact absurd rfl h
    | cons a t => rfl

theorem foldl_addNew_mem {α : Type} [DecidableEq α] :
    ∀ (l acc : List α) (x : α), x ∈ l.foldl addNew acc ↔ x ∈ acc ∨ x ∈ l := by
  intro l
  induction l with
  | nil => simp
  | cons y ys ih =>
      intro acc x
      simp only [List.foldl_cons]
      rw [ih (addNew acc y) x, mem_addNew]
      simp only [List.mem_cons]
      tauto

theorem foldl_addNew_nodup {α : Type} [DecidableEq α] :
    ∀ (l acc : List α), acc.Nodup → (l.foldl addNew acc).Nodup := by
  intro l
  induction l with
  | nil => exact fun acc h => h
  | cons y ys ih =>
      intro acc h
      exact ih (addNew acc y) (addNew_nodup acc y h)

theorem foldl_addNew_ne_nil {α : Type} [DecidableEq α] :
    ∀ (l acc : List α), acc ≠ [] → l.foldl addNew acc ≠ [] := by
  intro l
  induction l with
  | nil => exact fun acc h => h
  | cons y ys ih =>
      intro acc h
      exact ih (addNew acc y) (addNew_ne_nil acc y)

theorem foldl_addNew_head {α : Type} [DecidableEq α] :
    ∀ (l acc : List α), acc ≠ [] → (l.foldl addNew acc).head? = acc.head? := by
  intro l
  induction l with
  | nil => exact fun acc _ => rfl
  | cons y ys ih =>
      intro acc h
      simp only [List.foldl_cons]
      rw [ih (addNew acc y) (addNew_ne_nil acc y), addNew_head acc y h]

/-- C8: confirmed — `inferParameterTypes` classifies each sample as
boolean / number / string; with one distinct type it emits that type and
the first distinct value as example; with several it emits `string` with an
`anyOf` listing each distinct type once and at most three distinct example
values; and the claim's scenario `["5", "abc"]` yields exactly
`{type: string, anyOf: [number, string], examples: ["5", "abc"]}`. -/
theorem C8_infer_parameter_types :
    (∀ samples : List String, samples ≠ [] →
      inferSpec samples (APIAnalyzer.inferParameterTypes samples)) ∧
    APIAnalyzer.inferParameterTypes ["5", "abc"] =
      { type := "string", anyOf := some ["number", "string"],
        examples := some ["5", "abc"] } := by
  constructor
  · intro samples hne
    have hmapT : samples.foldl (fun acc s => addNew acc (APIAnalyzer.classifySample s)) [] =
        (samples.map APIAnalyzer.classifySample).foldl addNew [] := by
      rw [List.foldl_map]
    obtain ⟨s0, rest, hs0⟩ : ∃ s0 rest, samples = s0 :: rest := by
      cases samples with
      | nil => exact absurd rfl hne
      | cons a t => exact ⟨a, t, rfl⟩
    have hmemT : ∀ s ∈ samples, APIAnalyzer.classifySample s ∈
        samples.foldl (fun acc s => addNew acc (APIAnalyzer.classifySample s)) [] := by
      intro s hs
      rw [hmapT]
      exact (foldl_addNew_mem _ [] _).mpr (Or.inr (List.mem_map_of_mem _ hs))
    have hheadU : (samples.foldl addNew []).head? = samples.head? := by
      rw [hs0]
      simp only [List.foldl_cons]
      have h0 : addNew ([] : List String) s0 = [s0] := rfl
      rw [h0, foldl_addNew_head rest [s0] (by simp)]
      rfl
    have hmemU : ∀ v ∈ samples.foldl addNew [], v ∈ samples := by
      intro v hv
      rcases (foldl_addNew_mem samples [] v).mp hv with h | h
      · exact absurd h (List.not_mem_nil v)
      · exact h
    unfold APIAnalyzer.inferParameterTypes
    rw [if_neg hne]
    by_cases h1 : (samples.foldl (fun acc s => addNew acc (APIAnalyzer.classifySample s)) []).length = 1
    · rw [if_pos h1]
      refine ⟨?_, ?_, ?_⟩
      · intro _
        obtain ⟨t, ht⟩ := List.length_eq_one.mp h1
        constructor
        · intro s hs
          have := hmemT s hs
          rw [ht] at this ⊢
          simp only [List.mem_singleton] at this
          simp [List.headD, this]
        · exact hheadU
      · intro tl htl
        exact absurd htl (by simp)
      · intro exl hexl
        exact absurd hexl (by simp)
    · rw [if_neg h1]
      refine ⟨?_, ?_, ?_⟩
      · intro habs
        exact absurd habs (by simp)
      · intro tl htl
        simp only [Option.some.injEq] at htl
        subst htl
        refine ⟨rfl, ?_, ?_, ?_⟩
        · rw [hmapT]
          exact foldl_addNew_nodup _ [] List.nodup_nil
        · have hmem0 := hmemT s0 (by rw [hs0]; exact List.mem_cons_self s0 rest)
          have hne2 : (samples.foldl (fun acc s => addNew acc (APIAnalyzer.classifySample s)) []).length ≠ 0 := by
            intro h0
            rw [List.length_eq_zero.mp h0] at hmem0
            exact absurd hmem0 (List.not_mem_nil _)
          omega
        · intro ty
          rw [hmapT, foldl_addNew_mem]
          simp only [List.not_mem_nil, false_or, List.mem_map]
      · intro exl hexl
        simp only [Option.some.injEq] at hexl
        subst hexl
        refine ⟨List.length_take_le 3 _, ?_, ?_⟩
        · exact (List.take_sublist 3 _).nodup (foldl_addNew_nodup _ [] List.nodup_nil)
        · intro v hv
          exact hmemU v (List.take_subset 3 _ hv)
  · decide

/-- C8 witness: the universal part instantiated at the claim's scenario
samples. -/
theorem C8_infer_parameter_types_witness :
    (["5", "abc"] : List String) ≠ [] ∧
    inferSpec ["5", "abc"] (APIAnalyzer.inferParameterTypes ["5", "abc"]) :=
  ⟨by decide, C8_infer_parameter_types.1 ["5", "abc"] (by decide)⟩

namespace Utils

mutual

/-- Values agreeing off sensitive keys sanitize to the same value. -/
theorem sanV_congr : ∀ (a b : JSVal) (ks : List String),
    sameButSensitive a b ks = true →
    sanitizeSensitiveData a ks = sanitizeSensitiveData b ks
  | JSVal.jstr s, b, ks, h => by
      cases b <;> simp_all [sameButSensitive]
  | JSVal.jnum n, b, ks, h => by
      cases b <;> simp_all [sameButSensitive]
  | JSVal.jbool v, b, ks, h => by
      cases b <;> simp_all [sameButSensitive]
  | JSVal.jnull, b, ks, h => by
      cases b <;> simp_all [sameButSensitive]
  | JSVal.jarr xs, b, ks, h => by
      cases b with
      | jarr ys =>
          simp only [sameButSensitive] at h
          simp only [sanitizeSensitiveData]
          exact congrArg JSVal.jarr (sanL_congr xs ys _ h)
      | jstr s => simp [sameButSensitive] at h
      | jnum n => simp [sameButSensitive] at h
      | jbool v => simp [sameButSensitive] at h
      | jnull => simp [sameButSensitive] at h
      | jobj fs => simp [sameButSensitive] at h
  | JSVal.jobj fs, b, ks, h => by
      cases b with
      | jobj gs =>
          simp only [sameButSensitive] at h
          simp only [sanitizeSensitiveData]
          exact congrArg JSVal.jobj (sanFlds_congr fs gs _ h)
      | jstr s => simp [sameButSensitive] at h
      | jnum n => simp [sameButSensitive] at h
      | jbool v => simp [sameButSensitive] at h
      | jnull => simp [sameButSensitive] at h
      | jarr xs => simp [sameButSensitive] at h

/-- List version of `sanV_congr`. -/
theorem sanL_congr : ∀ (xs ys : JSList) (ks : List String),
    sameButSensList xs ys ks = true → sanitizeList xs ks = sanitizeList ys ks
  | JSList.nil, JSList.nil, _, _ => rfl
  | JSList.nil, JSList.cons y ys, _, h => by simp [sameButSensList] at h
  | JSList.cons x xs, JSList.nil, _, h => by simp [sameButSensList] at h
  | JSList.cons x xs, JSList.cons y ys, ks, h => by
      simp only [sameButSensList, Bool.and_eq_true] at h
      simp only [sanitizeList]
      rw [sanV_congr x y ks h.1, sanL_congr xs ys ks h.2]

/-- Field version of `sanV_congr`. -/
theorem sanFlds_congr : ∀ (fs gs : JSFields) (ks : List String),
    sameButSensFields fs gs ks = true → sanitizeFields fs ks = sanitizeFields gs ks
  | JSFields.nil, JSFields.nil, _, _ => rfl
  | JSFields.nil, JSFields.cons k w gs, _, h => by simp [sameButSensFields] at h
  | JSFields.cons k v fs, JSFields.nil, _, h => by simp [sameButSensFields] at h
  | JSFields.cons k v fs, JSFields.cons k' w gs, ks, h => by
      simp only [sameButSensFields, Bool.and_eq_true, beq_iff_eq, Bool.or_eq_true] at h
      obtain ⟨⟨hk, hvw⟩, hrest⟩ := h
      subst hk
      simp only [sanitizeFields]
      rw [sanFlds_congr fs gs ks hrest]
      rcases hvw with hs | hc
      · simp [hs]
      · congr 1
        by_cases hsens : isSensKey ks k = true
        · simp [hsens]
        · simp only [Bool.not_eq_true] at hsens
          rw [hsens]
          simp only [Bool.false_eq_true, if_false]
          cases v with
          | jstr s =>
              cases w with
              | jstr t => simp only [sameButSensitive, beq_iff_eq] at hc; rw [hc]
              | jnum m => simp [sameButSensitive] at hc
              | jbool bw => simp [sameButSensitive] at hc
              | jnull => simp [sameButSensitive] at hc
              | jarr yv => simp [sameButSensitive] at hc
              | jobj gv => simp [sameButSensitive] at hc
          | jnum n =>
              cases w with
              | jstr t => simp [sameButSensitive] at hc
              | jnum m => simp only [sameButSensitive, beq_iff_eq] at hc; rw [hc]
              | jbool bw => simp [sameButSensitive] at hc
              | jnull => simp [sameButSensitive] at hc
              | jarr yv => simp [sameButSensitive] at hc
              | jobj gv => simp [sameButSensitive] at hc
          | jbool bv =>
              cases w with
              | jstr t => simp [sameButSensitive] at hc
              | jnum m => simp [sameButSensitive] at hc
              | jbool bw => simp only [sameButSensitive, beq_iff_eq] at hc; rw [hc]
              | jnull => simp [sameButSensitive] at hc
              | jarr yv => simp [sameButSensitive] at hc
              | jobj gv => simp [sameButSensitive] at hc
          | jnull =>
              cases w with
              | jstr t => simp [sameButSensitive] at hc
              | jnum m => simp [sameButSensitive] at hc
              | jbool bw => simp [sameButSensitive] at hc
              | jnull => rfl
              | jarr yv => simp [sameButSensitive] at hc
              | jobj gv => simp [sameButSensitive] at hc
          | jarr xv =>
              cases w with
              | jstr t => simp [sameButSensitive] at hc
              | jnum m => simp [sameButSensitive] at hc
              | jbool bw => simp [sameButSensitive] at hc
              | jnull => simp [sameButSensitive] at hc
              | jarr yv => exact sanV_congr _ _ ks hc
              | jobj gv => simp [sameButSensitive] at hc
          | jobj fv =>
              cases w with
              | jstr t => simp [sameButSensitive] at hc
              | jnum m => simp [sameButSensitive] at hc
              | jbool bw => simp [sameButSensitive] at hc
              | jnull => simp [sameButSensitive] at hc
              | jarr yv => simp [sameButSensitive] at hc
              | jobj gv => exact sanV_congr _ _ ks hc
end

end Utils

/-- C10: confirmed — `sanitizeSensitiveData` is noninterfering: any two
values that differ only in the values stored under sensitive-named keys
sanitize to equal results (sensitive values are replaced by `[REDACTED]`
recursively through nested objects and arrays, all other scalars pass
through unchanged). -/
theorem C10_sanitize_noninterference :
    ∀ (a b : Utils.JSVal) (ks : List String),
      Utils.sameButSensitive a b ks = true →
      Utils.sanitizeSensitiveData a ks = Utils.sanitizeSensitiveData b ks :=
  Utils.sanV_congr

/-- C10 witness: two concrete objects differing in their `password` and
nested `api-key` values (one even differing in type) sanitize to the same
result. -/
theorem C10_sanitize_noninterference_witness :
    Utils.sameButSensitive sampleSecretA sampleSecretB [] = true ∧
    Utils.sanitizeSensitiveData sampleSecretA [] =
      Utils.sanitizeSensitiveData sampleSecretB [] :=
  ⟨by decide, C10_sanitize_noninterference sampleSecretA sampleSecretB [] (by decide)⟩

theorem lookupA_setKey_self {α : Type} :
    ∀ (l : List (String × α)) (k : String) (v : α), lookupA (setKey l k v) k = some v := by
  intro l
  induction l with
  | nil => intro k v; simp [setKey, lookupA]
  | cons p t ih =>
      obtain ⟨pk, pv⟩ := p
      intro k v
      by_cases hk : pk = k
      · simp [setKey, hk, lookupA]
      · simp only [setKey, hk, if_false]
        simp only [lookupA, hk, if_false]
        exact ih k v

theorem lookupA_setKey_ne {α : Type} :
    ∀ (l : List (String × α)) (k k' : String) (v : α), k' ≠ k →
      lookupA (setKey l k v) k' = lookupA l k' := by
  intro l
  induction l with
  | nil =>
      intro k k' v h
      simp only [setKey, lookupA]
      rw [if_neg (fun hh => h hh.symm)]
  | cons p t ih =>
      obtain ⟨pk, pv⟩ := p
      intro k k' v h
      by_cases hk : pk = k
      · subst hk
        have hkk : ¬ pk = k' := fun hh => h hh.symm
        simp [setKey, lookupA, hkk]
      · simp only [setKey, hk, if_false]
        simp only [lookupA]
        by_cases hp : pk = k'
        · simp [hp]
        · simp only [hp, if_false]
          exact ih k k' v h

theorem keys_setKey {α : Type} :
    ∀ (l : List (String × α)) (k : String) (v : α),
      (setKey l k v).map (fun p => p.1) =
        if k ∈ l.map (fun p => p.1) then l.map (fun p => p.1)
        else l.map (fun p => p.1) ++ [k] := by
  intro l
  induction l with
  | nil => intro k v; simp [setKey]
  | cons p t ih =>
      obtain ⟨pk, pv⟩ := p
      intro k v
      by_cases hk : pk = k
      · simp [setKey, hk]
      · simp only [setKey, hk, if_false, List.map_cons]
        rw [ih k v]
        by_cases hmem : k ∈ t.map (fun p => p.1)
        · simp [hmem, Ne.symm hk]
        · have hnc : ¬ (k = pk ∨ k ∈ t.map (fun p => p.1)) := by
            rintro (h | h)
            · exact hk h.symm
            · exact hmem h
          have hkp : ¬ k = pk := fun hh => hk hh.symm
          simp [hmem, hkp, List.mem_cons]

theorem nodup_keys_setKey {α : Type} (l : List (String × α)) (k : String) (v : α)
    (h : (l.map (fun p => p.1)).Nodup) : ((setKey l k v).map (fun p => p.1)).Nodup := by
  rw [keys_setKey]
  by_cases hmem : k ∈ l.map (fun p => p.1)
  · simpa [hmem]
  · simp [hmem, List.nodup_append, h]

theorem mem_setKey {α : Type} :
    ∀ (l : List (String × α)) (k : String) (v : α) (pr : String × α),
      pr ∈ setKey l k v → pr = (k, v) ∨ pr ∈ l := by
  intro l
  induction l with
  | nil =>
      intro k v pr h
      simp [setKey] at h
      exact Or.inl h
  | cons p t ih =>
      obtain ⟨pk, pv⟩ := p
      intro k v pr h
      by_cases hk : pk = k
      · simp only [setKey, hk, if_true, List.mem_cons] at h
        rcases h with h | h
        · exact Or.inl h
        · exact Or.inr (List.mem_cons_of_mem _ h)
      · simp only [setKey, hk, if_false, List.mem_cons] at h
        rcases h with h | h
        · exact Or.inr (by simp [h])
        · rcases ih k v pr h with h2 | h2
          · exact Or.inl h2
          · exact Or.inr (List.mem_cons_of_mem _ h2)

theorem lookup2_setKey2_self (P : OpenAPIGenerator.Paths) (t m : String)
    (op : OpenAPIGenerator.Operation) :
    OpenAPIGenerator.lookup2 (OpenAPIGenerator.setKey2 P t m op) t m = some op := by
  unfold OpenAPIGenerator.lookup2 OpenAPIGenerator.setKey2
  rw [lookupA_setKey_self]
  simp [lookupA_setKey_self]

theorem lookup2_setKey2_ne (P : OpenAPIGenerator.Paths) (t m t' m' : String)
    (op : OpenAPIGenerator.Operation) (h : ¬ (t' = t ∧ m' = m)) :
    OpenAPIGenerator.lookup2 (OpenAPIGenerator.setKey2 P t m op) t' m' =
      OpenAPIGenerator.lookup2 P t' m' := by
  unfold OpenAPIGenerator.lookup2 OpenAPIGenerator.setKey2
  by_cases ht : t' = t
  · subst ht
    have hm : m' ≠ m := fun hmm => h ⟨rfl, hmm⟩
    rw [lookupA_setKey_self]
    have hmm : ¬ m = m' := fun hh => hm hh.symm
    cases hP : lookupA P t' with
    | none => simp [hP, setKey, lookupA, hmm, lookupA_setKey_ne _ _ _ _ hm]
    | some inner => simp [hP, lookupA_setKey_ne _ _ _ _ hm]
  · rw [lookupA_setKey_ne _ _ _ _ ht]

theorem pathsWellFormed_setKey2 (P : OpenAPIGenerator.Paths) (t m : String)
    (op : OpenAPIGenerator.Operation) (h : pathsWellFormed P) :
    pathsWellFormed (OpenAPIGenerator.setKey2 P t m op) := by
  obtain ⟨houter, hinner⟩ := h
  constructor
  · exact nodup_keys_setKey P t _ houter
  · intro pr hpr
    rcases mem_setKey P t _ pr hpr with h2 | h2
    · subst h2
      show ((setKey ((lookupA P t).getD []) m op).map (fun p => p.1)).Nodup
      apply nodup_keys_setKey
      cases hP : lookupA P t with
      | none => simp
      | some inner =>
          have : (t, inner) ∈ P := by
            clear hpr hinner houter
            induction P with
            | nil => simp [lookupA] at hP
            | cons q rest ih =>
                simp only [lookupA] at hP
                by_cases hq : q.1 = t
                · simp only [hq, if_true, Option.some.injEq] at hP
                  have hqe : (t, inner) = q := by rw [← hq, ← hP]
                  rw [hqe]
                  exact List.mem_cons_self q rest
                · simp only [hq, if_false] at hP
                  exact List.mem_cons_of_mem q (ih hP)
          simpa [hP] using hinner (t, inner) this
    · exact hinner pr h2

theorem generateOperation_parameters (e : Endpoint) (st : OpenAPIGenerator.GenState) :
    (OpenAPIGenerator.generateOperation e st).1.parameters =
      OpenAPIGenerator.generateParameters e := rfl

theorem generateOperation_responses (e : Endpoint) (st : OpenAPIGenerator.GenState) :
    (OpenAPIGenerator.generateOperation e st).1.responses =
      OpenAPIGenerator.generateResponses e := rfl

theorem generatePaths_concat (l : List Endpoint) (e : Endpoint)
    (st : OpenAPIGenerator.GenState) :
    OpenAPIGenerator.generatePaths (l ++ [e]) st =
      (OpenAPIGenerator.setKey2 (OpenAPIGenerator.generatePaths l st).1
        (OpenAPIGenerator.normalizePath e.pathname) (lowStr e.method)
        (OpenAPIGenerator.generateOperation e (OpenAPIGenerator.generatePaths l st).2).1,
       (OpenAPIGenerator.generateOperation e (OpenAPIGenerator.generatePaths l st).2).2) := by
  unfold OpenAPIGenerator.generatePaths
  rw [List.foldl_append]
  simp

theorem lastKeyed_concat_hit (l : List Endpoint) (e : Endpoint) (t m : String)
    (h : keyedBy e t m = true) : lastKeyed (l ++ [e]) t m = some e := by
  unfold lastKeyed
  rw [List.filter_append]
  simp [h]

theorem lastKeyed_concat_miss (l : List Endpoint) (e : Endpoint) (t m : String)
    (h : ¬ keyedBy e t m = true) : lastKeyed (l ++ [e]) t m = lastKeyed l t m := by
  unfold lastKeyed
  rw [List.filter_append]
  simp [h]

/-- C1 (amended): every synthesis pass produces exactly one operation per
`(template, method)` key — no duplicate path keys, no duplicate method keys
within a path — but the record at each key is generated from the *last*
contributing observation alone: its parameters and responses are exactly
`generateParameters`/`generateResponses` of the last observation whose
templated path and lower-cased method hit that key (so earlier
observations' status entries are replaced, not merged). -/
theorem C1_merge_last_wins :
    ∀ (es : List Endpoint) (st : OpenAPIGenerator.GenState),
      pathsWellFormed (OpenAPIGenerator.generatePaths es st).1 ∧
      ∀ t m,
        (OpenAPIGenerator.lookup2 (OpenAPIGenerator.generatePaths es st).1 t m).map
            (fun op => (op.parameters, op.responses)) =
          (lastKeyed es t m).map
            (fun e => (OpenAPIGenerator.generateParameters e,
                       OpenAPIGenerator.generateResponses e)) := by
  intro es
  induction es using List.reverseRecOn with
  | nil =>
      intro st
      constructor
      · exact ⟨List.nodup_nil, by intro pr hpr; simp [OpenAPIGenerator.generatePaths] at hpr⟩
      · intro t m
        simp [OpenAPIGenerator.generatePaths, OpenAPIGenerator.lookup2, lookupA, lastKeyed]
  | append_singleton l e ih =>
      intro st
      rw [generatePaths_concat]
      obtain ⟨ihwf, ihlook⟩ := ih st
      constructor
      · exact pathsWellFormed_setKey2 _ _ _ _ ihwf
      · intro t m
        by_cases hkey : keyedBy e t m = true
        · have ht : OpenAPIGenerator.normalizePath e.pathname = t ∧ lowStr e.method = m := by
            simpa [keyedBy, Bool.and_eq_true] using hkey
          obtain ⟨ht1, ht2⟩ := ht
          subst ht1
          subst ht2
          rw [lookup2_setKey2_self, lastKeyed_concat_hit l e _ _ hkey]
          simp [generateOperation_parameters, generateOperation_responses]
        · have hne : ¬ (t = OpenAPIGenerator.normalizePath e.pathname ∧ m = lowStr e.method) := by
            rintro ⟨h1, h2⟩
            apply hkey
            simp [keyedBy, h1, h2]
          rw [lookup2_setKey2_ne _ _ _ _ _ _ hne]
          rw [lastKeyed_concat_miss l e t m hkey]
          exact ihlook t m

theorem freshLoop_not_mem (base : String) (cache : List String) :
    ∀ fuel counter,
      (∃ k, counter ≤ k ∧ k < counter + fuel ∧ base ++ natStr k ∉ cache) →
      OpenAPIGenerator.freshLoop base cache counter fuel ∉ cache := by
  intro fuel
  induction fuel with
  | zero =>
      intro counter h
      obtain ⟨k, hk1, hk2, _⟩ := h
      omega
  | succ f ih =>
      intro counter h
      unfold OpenAPIGenerator.freshLoop
      by_cases hc : base ++ natStr counter ∈ cache
      · simp only [hc, if_true]
        apply ih (counter + 1)
        obtain ⟨k, hk1, hk2, hk3⟩ := h
        refine ⟨k, ?_, by omega, hk3⟩
        rcases Nat.eq_or_lt_of_le hk1 with heq | hlt
        · exact absurd (heq ▸ hc) hk3
        · omega
      · simp [hc]

theorem maxLen_ge (cache : List String) :
    ∀ c ∈ cache, c.length ≤ OpenAPIGenerator.maxLen cache := by
  induction cache with
  | nil => intro c hc; simp at hc
  | cons a t ih =>
      intro c hc
      unfold OpenAPIGenerator.maxLen
      simp only [List.foldr_cons]
      rcases List.mem_cons.mp hc with h | h
      · subst h
        exact Nat.le_max_left _ _
      · exact Nat.le_trans (ih c h) (Nat.le_max_right _ _)

theorem natStr_length_gt (k L : Nat) (h : 10 ^ L ≤ k) : L < (natStr k).length := by
  have := natDigs_len_ge L k h
  have hlen : (natStr k).length = (natDigs k).length := rfl
  omega

theorem generateUniqueOperationId_fresh (method pathname : String) (cache : List String) :
    (OpenAPIGenerator.generateUniqueOperationId method pathname cache).1 ∉ cache := by
  unfold OpenAPIGenerator.generateUniqueOperationId
  by_cases hb : OpenAPIGenerator.opIdBase method pathname ∈ cache
  · simp only [hb, if_true]
    apply freshLoop_not_mem
    refine ⟨10 ^ OpenAPIGenerator.maxLen cache, ?_, ?_, ?_⟩
    · exact Nat.one_le_pow _ _ (by omega)
    · have := Nat.pow_lt_pow_right (show 1 < 10 by omega)
        (show OpenAPIGenerator.maxLen cache < OpenAPIGenerator.maxLen cache + 1 by omega)
      omega
    · intro hmem
      have h1 := maxLen_ge cache _ hmem
      have h2 : (OpenAPIGenerator.opIdBase method pathname ++
          natStr (10 ^ OpenAPIGenerator.maxLen cache)).length =
          (OpenAPIGenerator.opIdBase method pathname).length +
          (natStr (10 ^ OpenAPIGenerator.maxLen cache)).length := by
        simp [String.length_append]
      have h3 := natStr_length_gt (10 ^ OpenAPIGenerator.maxLen cache)
        (OpenAPIGenerator.maxLen cache) (Nat.le_refl _)
      omega
  · simp [hb]

theorem generateOperation_cache (e : Endpoint) (st : OpenAPIGenerator.GenState) :
    (OpenAPIGenerator.generateOperation e st).2.opIdCache =
      st.opIdCache ++ [(OpenAPIGenerator.generateOperation e st).1.operationId] := rfl

theorem generateOperation_opId_fresh (e : Endpoint) (st : OpenAPIGenerator.GenState) :
    (OpenAPIGenerator.generateOperation e st).1.operationId ∉ st.opIdCache :=
  generateUniqueOperationId_fresh e.method e.pathname st.opIdCache

theorem generatePaths_cache_mono :
    ∀ (es : List Endpoint) (st : OpenAPIGenerator.GenState) (x : String),
      x ∈ st.opIdCache → x ∈ (OpenAPIGenerator.generatePaths es st).2.opIdCache := by
  intro es
  induction es using List.reverseRecOn with
  | nil =>
      intro st x hx
      exact hx
  | append_singleton l e ih =>
      intro st x hx
      rw [generatePaths_concat]
      simp only []
      rw [generateOperation_cache]
      exact List.mem_append_left _ (ih st x hx)

theorem generateOpenAPISpec_ne_nil (es : List Endpoint) (h : es ≠ [])
    (opts : OpenAPIGenerator.Options) (now : String) (st : OpenAPIGenerator.GenState) :
    (OpenAPIGenerator.generateOpenAPISpec es opts now st).1.paths =
      (OpenAPIGenerator.generatePaths es st).1 ∧
    (OpenAPIGenerator.generateOpenAPISpec es opts now st).2 =
      (OpenAPIGenerator.generatePaths es st).2 := by
  unfold OpenAPIGenerator.generateOpenAPISpec
  rw [if_neg h]
  exact ⟨rfl, rfl⟩

/-- C5 (amended): the caches persist on the generator instance across
`synthesize` calls, so running the synthesis twice in sequence on any
non-empty snapshot yields different documents: the operation at the last
observation's `(template, method)` key gets a fresh (suffixed) operationId
on the second call. -/
theorem C5_second_synthesize_differs :
    ∀ (es : List Endpoint) (opts : OpenAPIGenerator.Options) (now : String),
      es ≠ [] →
      (OpenAPIGenerator.generateOpenAPISpec es opts now
        (OpenAPIGenerator.generateOpenAPISpec es opts now
          OpenAPIGenerator.GenState.fresh).2).1 ≠
      (OpenAPIGenerator.generateOpenAPISpec es opts now
        OpenAPIGenerator.GenState.fresh).1 := by
  intro es opts now hne
  obtain ⟨l, e, hes⟩ : ∃ l e, es = l ++ [e] := by
    rcases List.eq_nil_or_concat es with h | ⟨L, b, h⟩
    · exact absurd h hne
    · exact ⟨L, b, by simpa [List.concat_eq_append] using h⟩
  subst hes
  obtain ⟨hp1, hs1⟩ := generateOpenAPISpec_ne_nil (l ++ [e]) hne opts now
    OpenAPIGenerator.GenState.fresh
  obtain ⟨hp2, _⟩ := generateOpenAPISpec_ne_nil (l ++ [e]) hne opts now
    (OpenAPIGenerator.generateOpenAPISpec (l ++ [e]) opts now
      OpenAPIGenerator.GenState.fresh).2
  intro hcontra
  have hpaths := congrArg OpenAPIGenerator.OpenAPISpec.paths hcontra
  rw [hp1, hp2, hs1] at hpaths
  have hL1 : OpenAPIGenerator.lookup2
      (OpenAPIGenerator.generatePaths (l ++ [e]) OpenAPIGenerator.GenState.fresh).1
      (OpenAPIGenerator.normalizePath e.pathname) (lowStr e.method) =
      some (OpenAPIGenerator.generateOperation e
        (OpenAPIGenerator.generatePaths l OpenAPIGenerator.GenState.fresh).2).1 := by
    rw [congrArg Prod.fst (generatePaths_concat l e OpenAPIGenerator.GenState.fresh)]
    exact lookup2_setKey2_self _ _ _ _
  have hL2 : OpenAPIGenerator.lookup2
      (OpenAPIGenerator.generatePaths (l ++ [e])
        (OpenAPIGenerator.generatePaths (l ++ [e]) OpenAPIGenerator.GenState.fresh).2).1
      (OpenAPIGenerator.normalizePath e.pathname) (lowStr e.method) =
      some (OpenAPIGenerator.generateOperation e
        (OpenAPIGenerator.generatePaths l
          (OpenAPIGenerator.generatePaths (l ++ [e])
            OpenAPIGenerator.GenState.fresh).2).2).1 := by
    rw [congrArg Prod.fst (generatePaths_concat l e
      (OpenAPIGenerator.generatePaths (l ++ [e]) OpenAPIGenerator.GenState.fresh).2)]
    exact lookup2_setKey2_self _ _ _ _
  rw [hpaths] at hL2
  have hop := Option.some.inj (hL1.symm.trans hL2)
  have hid := congrArg OpenAPIGenerator.Operation.operationId hop
  have hfresh := generateOperation_opId_fresh e
    (OpenAPIGenerator.generatePaths l
      (OpenAPIGenerator.generatePaths (l ++ [e]) OpenAPIGenerator.GenState.fresh).2).2
  have hmem1 : (OpenAPIGenerator.generateOperation e
      (OpenAPIGenerator.generatePaths l OpenAPIGenerator.GenState.fresh).2).1.operationId ∈
      (OpenAPIGenerator.generatePaths (l ++ [e]) OpenAPIGenerator.GenState.fresh).2.opIdCache := by
    rw [congrArg Prod.snd (generatePaths_concat l e OpenAPIGenerator.GenState.fresh)]
    rw [generateOperation_cache]
    exact List.mem_append_right _ (List.mem_singleton_self _)
  have hmem2 := generatePaths_cache_mono l
    (OpenAPIGenerator.generatePaths (l ++ [e]) OpenAPIGenerator.GenState.fresh).2 _ hmem1
  rw [hid] at hmem2
  exact hfresh hmem2

/-- C5 (counterexample): calling the synthesis twice in sequence on the
snapshot `[obsUsers42]` with the same timestamp yields two different
documents — the operationId cache carried over from the first call forces a
`get421` suffix in the second — refuting "the caches are seeded empty at
the start of every synthesize invocation". -/
theorem C5_idempotence_counterexample :
    (OpenAPIGenerator.generateOpenAPISpec [obsUsers42] {} "2024-01-01T00:00:00.000Z"
      (OpenAPIGenerator.generateOpenAPISpec [obsUsers42] {} "2024-01-01T00:00:00.000Z"
        OpenAPIGenerator.GenState.fresh).2).1 ≠
    (OpenAPIGenerator.generateOpenAPISpec [obsUsers42] {} "2024-01-01T00:00:00.000Z"
      OpenAPIGenerator.GenState.fresh).1 := by
  decide

/-- C5 witness: the amended theorem applied at the singleton snapshot. -/
theorem C5_second_synthesize_differs_witness :
    ([obsUsers42] : List Endpoint) ≠ [] ∧
    (OpenAPIGenerator.generateOpenAPISpec [obsUsers42] {} "T"
      (OpenAPIGenerator.generateOpenAPISpec [obsUsers42] {} "T"
        OpenAPIGenerator.GenState.fresh).2).1 ≠
    (OpenAPIGenerator.generateOpenAPISpec [obsUsers42] {} "T"
      OpenAPIGenerator.GenState.fresh).1 :=
  ⟨by decide, C5_second_synthesize_differs [obsUsers42] {} "T" (by decide)⟩

/-- C3 (amended): the generated operationId is the method prefix (the
GET→get / POST→create / PUT→update / PATCH→patch / DELETE→delete /
HEAD→head / OPTIONS→options table, other verbs lower-cased) concatenated
with the capitalized last non-empty segment of the observation's *raw*
pathname (`item` when there is none) — not of its template; on the claim's
scenario the single `/users/{id}` `get` operation carries
`operationId = "get43"` and one required integer `id` path parameter. -/
theorem C3_operation_id_raw_path :
    (∀ (method pathname : String) (cache : List String),
      OpenAPIGenerator.opIdBase method pathname ∉ cache →
      (OpenAPIGenerator.generateUniqueOperationId method pathname cache).1 =
        OpenAPIGenerator.methodWord method ++
          OpenAPIGenerator.capitalize
            ((((splitSlash pathname).filter (fun s => s ≠ "")).getLast?).getD "item")) ∧
    ((OpenAPIGenerator.generatePaths [obsUsers42, obsUsers43]
        OpenAPIGenerator.GenState.fresh).1.map (fun p => p.1) = ["/users/{id}"]) ∧
    ((OpenAPIGenerator.lookup2
        (OpenAPIGenerator.generatePaths [obsUsers42, obsUsers43]
          OpenAPIGenerator.GenState.fresh).1 "/users/{id}" "get").map
      (fun op => (op.operationId, op.parameters)) =
      some ("get43",
        [{ name := "id", loc := "path", required := true, schemaType := "integer",
           description := "Identifier for users" }])) := by
  refine ⟨?_, by decide, by decide⟩
  intro method pathname cache h
  unfold OpenAPIGenerator.generateUniqueOperationId
  simp only [if_neg h]
  rfl

/-- C3 witness: the universal operationId formula instantiated at the
scenario's first observation with an empty cache. -/
theorem C3_operation_id_raw_path_witness :
    OpenAPIGenerator.opIdBase "GET" "/users/42" ∉ ([] : List String) ∧
    (OpenAPIGenerator.generateUniqueOperationId "GET" "/users/42" []).1 = "get42" :=
  ⟨by decide, by
    have h := C3_operation_id_raw_path.1 "GET" "/users/42" [] (by decide)
    rw [h]
    decide⟩

theorem mem_uniqFirstGo {α : Type} [DecidableEq α] :
    ∀ (l seen : List α) (x : α), x ∈ uniqFirstGo l seen ↔ x ∈ l ∧ x ∉ seen := by
  intro l
  induction l with
  | nil => intro seen x; simp [uniqFirstGo]
  | cons y ys ih =>
      intro seen x
      unfold uniqFirstGo
      by_cases hy : y ∈ seen
      · simp only [hy, if_true]
        rw [ih seen x]
        simp only [List.mem_cons]
        constructor
        · rintro ⟨h1, h2⟩
          exact ⟨Or.inr h1, h2⟩
        · rintro ⟨h1 | h1, h2⟩
          · exact absurd (h1 ▸ hy) h2
          · exact ⟨h1, h2⟩
      · simp only [hy, if_false, List.mem_cons]
        rw [ih (seen ++ [y]) x]
        simp only [List.mem_append, List.mem_singleton]
        constructor
        · rintro (h | ⟨h1, h2⟩)
          · exact ⟨Or.inl h, h ▸ hy⟩
          · exact ⟨Or.inr h1, fun hs => h2 (Or.inl hs)⟩
        · rintro ⟨h1 | h1, h2⟩
          · exact Or.inl h1
          · by_cases hxy : x = y
            · exact Or.inl hxy
            · exact Or.inr ⟨h1, by
                rintro (hs | hs)
                · exact h2 hs
                · exact hxy hs⟩

theorem nodup_uniqFirstGo {α : Type} [DecidableEq α] :
    ∀ (l seen : List α), (uniqFirstGo l seen).Nodup := by
  intro l
  induction l with
  | nil => intro seen; simp [uniqFirstGo]
  | cons y ys ih =>
      intro seen
      unfold uniqFirstGo
      by_cases hy : y ∈ seen
      · simp only [hy, if_true]
        exact ih seen
      · simp only [hy, if_false, List.nodup_cons]
        refine ⟨?_, ih (seen ++ [y])⟩
        intro hmem
        have := (mem_uniqFirstGo ys (seen ++ [y]) y).mp hmem
        exact this.2 (List.mem_append_right _ (List.mem_singleton_self y))

theorem mem_uniqFirst {α : Type} [DecidableEq α] (l : List α) (x : α) :
    x ∈ uniqFirst l ↔ x ∈ l := by
  unfold uniqFirst
  rw [mem_uniqFirstGo]
  simp

theorem nodup_uniqFirst {α : Type} [DecidableEq α] (l : List α) :
    (uniqFirst l).Nodup := nodup_uniqFirstGo l []

/-- C9 (amended): for a non-empty observation sequence whose first URL
parses, the first server entry is `protocol//hostname` of the first
observation (its origin with any port removed); extra entries are appended
only when at least two distinct origins occur, in which case the tail lists
exactly the distinct observed origins other than that base string, each
exactly once. -/
theorem C9_server_list :
    ∀ (e : Endpoint) (es : List Endpoint) (u : URLRec),
      parseURL e.url = some u →
      (OpenAPIGenerator.generateServers
          (OpenAPIGenerator.determineBaseURL (e :: es)) (e :: es)).head? =
        some (u.protocol ++ "//" ++ u.hostname) ∧
      (OpenAPIGenerator.generateServers
          (OpenAPIGenerator.determineBaseURL (e :: es)) (e :: es)).tail.Nodup ∧
      (∀ o, o ∈ (OpenAPIGenerator.generateServers
          (OpenAPIGenerator.determineBaseURL (e :: es)) (e :: es)).tail ↔
        ((uniqFirst (originsOf (e :: es))).length > 1 ∧ o ∈ originsOf (e :: es) ∧
          o ≠ u.protocol ++ "//" ++ u.hostname)) := by
  intro e es u hu
  have hbase : OpenAPIGenerator.determineBaseURL (e :: es) =
      u.protocol ++ "//" ++ u.hostname := by
    unfold OpenAPIGenerator.determineBaseURL
    simp [hu]
  rw [hbase]
  unfold OpenAPIGenerator.generateServers
  have horig : ((e :: es).filterMap (fun x => (parseURL x.url).map URLRec.origin)) =
      originsOf (e :: es) := rfl
  rw [horig]
  by_cases hlen : (uniqFirst (originsOf (e :: es))).length > 1
  · simp only [hlen, if_true]
    refine ⟨rfl, ?_, ?_⟩
    · exact (nodup_uniqFirst _).filter _
    · intro o
      simp only [List.tail_cons, List.mem_filter, mem_uniqFirst, decide_eq_true_eq]
      constructor
      · rintro ⟨h1, h2⟩
        exact ⟨trivial, h1, h2⟩
      · rintro ⟨_, h1, h2⟩
        exact ⟨h1, h2⟩
  · simp only [hlen, if_false]
    refine ⟨rfl, by simp, ?_⟩
    intro o
    simp only [List.tail_cons, List.not_mem_nil, false_iff]
    rintro ⟨h1, _, _⟩
    exact h1.elim

/-- C9 witness: the amended server-list theorem applied at the singleton
sequence with first URL `https://api.x.com/users/42`. -/
theorem C9_server_list_witness :
    parseURL obsUsers42.url =
      some { protocol := "https:", hostname := "api.x.com", port := "",
             pathname := "/users/42", search := "" } ∧
    (OpenAPIGenerator.generateServers
        (OpenAPIGenerator.determineBaseURL [obsUsers42]) [obsUsers42]).head? =
      some ("https:" ++ "//" ++ "api.x.com") :=
  ⟨by decide,
   (C9_server_list obsUsers42 []
     { protocol := "https:", hostname := "api.x.com", port := "",
       pathname := "/users/42", search := "" } (by decide)).1⟩

/-! ## Segment-wise characterization of the Synthesizer's normalizePath -/

/-- `takeWhile` over an append whose left part satisfies the test. -/
theorem takeWhile_app_all {α : Type} (p : α → Bool) :
    ∀ (s t : List α), s.all p = true → (s ++ t).takeWhile p = s ++ t.takeWhile p := by
  intro s
  induction s with
  | nil => intro t _; rfl
  | cons a as ih =>
      intro t hall
      simp only [List.all_cons, Bool.and_eq_true] at hall
      simp only [List.cons_append, List.takeWhile_cons, hall.1, if_true]
      rw [ih t hall.2]

/-- `dropWhile` over an append whose left part satisfies the test. -/
theorem dropWhile_app_all {α : Type} (p : α → Bool) :
    ∀ (s t : List α), s.all p = true → (s ++ t).dropWhile p = t.dropWhile p := by
  intro s
  induction s with
  | nil => intro t _; rfl
  | cons a as ih =>
      intro t hall
      simp only [List.all_cons, Bool.and_eq_true] at hall
      simp only [List.cons_append, List.dropWhile_cons, hall.1, if_true]
      exact ih t hall.2

/-- `takeWhile`/`dropWhile` over an append whose left part falsifies the test
somewhere. -/
theorem takeWhile_app_not {α : Type} (p : α → Bool) :
    ∀ (s t : List α), ¬ s.all p = true →
      (s ++ t).takeWhile p = s.takeWhile p ∧
        (s ++ t).dropWhile p = s.dropWhile p ++ t := by
  intro s
  induction s with
  | nil => intro t h; exact absurd rfl h
  | cons a as ih =>
      intro t hall
      by_cases hpa : p a = true
      · have has : ¬ as.all p = true := by
          intro hh; exact hall (by simp [List.all_cons, hpa, hh])
        obtain ⟨h1, h2⟩ := ih t has
        constructor
        · simp only [List.cons_append, List.takeWhile_cons, hpa, if_true]
          rw [h1]
        · simp only [List.cons_append, List.dropWhile_cons, hpa, if_true]
          rw [h2]
      · constructor
        · simp [List.takeWhile_cons, hpa]
        · simp [List.dropWhile_cons, hpa]

/-- The head of a non-trivial `dropWhile` falsifies the test and lies in the
list. -/
theorem dropWhile_head_not {α : Type} (p : α → Bool) :
    ∀ s : List α, ¬ s.all p = true →
      ∃ c tl, s.dropWhile p = c :: tl ∧ p c = false ∧ c ∈ s := by
  intro s
  induction s with
  | nil => intro h; exact absurd rfl h
  | cons a as ih =>
      intro hall
      by_cases hpa : p a = true
      · have has : ¬ as.all p = true := by
          intro hh; exact hall (by simp [List.all_cons, hpa, hh])
        obtain ⟨c, tl, h1, h2, h3⟩ := ih has
        exact ⟨c, tl, by simp [List.dropWhile_cons, hpa, h1],
          h2, List.mem_cons_of_mem a h3⟩
      · refine ⟨a, as, by simp [List.dropWhile_cons, hpa], ?_, List.mem_cons_self a as⟩
        revert hpa
        cases p a <;> simp

/-- A path assembled from segments starts with a slash (or is empty). -/
theorem lookSlash_pathOf : ∀ segs : List (List Char), lookSlash (pathOf segs) = true := by
  intro segs
  cases segs with
  | nil => rfl
  | cons s rest => simp [pathOf, lookSlash]

/-- `passNC` walks over slash-free characters untouched. -/
theorem passNC_skip (tryFn : List Char → Option Nat) (repl : List Char) :
    ∀ s t : List Char, '/' ∉ s →
      passNC tryFn repl (s ++ t) = s ++ passNC tryFn repl t := by
  intro s
  induction s with
  | nil => intro t _; rfl
  | cons c cs ih =>
      intro t hns
      have hc : ¬ c = '/' := fun hh => hns (hh ▸ List.mem_cons_self c cs)
      rw [List.cons_append, passNC_cons, if_neg hc,
        ih t (fun hm => hns (List.mem_cons_of_mem c hm))]
      rfl

/-- On a well-formed segment path, a `passNC` whose matcher is a segment test
acts as a per-segment substitution. -/
theorem passNC_pathOf (tryFn : List Char → Option Nat) (repl : List Char)
    (segMatch : List Char → Bool)
    (htry : ∀ s t : List Char, s ≠ [] → '/' ∉ s → lookSlash t = true →
      tryFn (s ++ t) = if segMatch s then some s.length else none) :
    ∀ segs : List (List Char), (∀ s ∈ segs, wfseg s) →
      passNC tryFn repl (pathOf segs) = pathOf (segs.map (segSub segMatch repl)) := by
  intro segs
  induction segs with
  | nil => intro _; rfl
  | cons s rest ih =>
      intro hwf
      obtain ⟨hs1, hs2⟩ := hwf s (List.mem_cons_self s rest)
      have hrest : ∀ x ∈ rest, wfseg x := fun x hx => hwf x (List.mem_cons_of_mem s hx)
      show passNC tryFn repl ('/' :: (s ++ pathOf rest)) = _
      rw [passNC_cons, if_pos rfl,
        htry s (pathOf rest) hs1 hs2 (lookSlash_pathOf rest)]
      by_cases hm : segMatch s = true
      · rw [if_pos hm]
        show ('/' :: repl) ++ passNC tryFn repl ((s ++ pathOf rest).drop s.length) = _
        rw [List.drop_left, ih hrest]
        simp [pathOf, segSub, hm]
      · rw [if_neg hm]
        show '/' :: passNC tryFn repl (s ++ pathOf rest) = _
        rw [passNC_skip tryFn repl s (pathOf rest) hs2, ih hrest]
        simp [pathOf, segSub, hm]

/-- `tryId` on a segment boundary decides exactly the all-digit test. -/
theorem tryId_seg : ∀ s t : List Char, s ≠ [] → '/' ∉ s → lookSlash t = true →
    tryId (s ++ t) = if s.all isDigitC then some s.length else none := by
  intro s t hs1 hs2 ht
  by_cases hall : s.all isDigitC = true
  · rw [if_pos hall]
    have htk : t.takeWhile isDigitC = [] ∧ t.dropWhile isDigitC = t := by
      cases t with
      | nil => exact ⟨rfl, rfl⟩
      | cons c tl =>
          have hcsl : c = '/' := by simpa [lookSlash] using ht
          subst hcsl
          have hnd : isDigitC '/' = false := by decide
          exact ⟨by simp [List.takeWhile_cons, hnd], by simp [List.dropWhile_cons, hnd]⟩
    show (if ((s ++ t).takeWhile isDigitC) ≠ [] &&
          lookSlash ((s ++ t).dropWhile isDigitC)
        then some ((s ++ t).takeWhile isDigitC).length else none) = some s.length
    rw [takeWhile_app_all isDigitC s t hall, dropWhile_app_all isDigitC s t hall,
      htk.1, htk.2, List.append_nil]
    simp [hs1, ht]
  · rw [if_neg hall]
    obtain ⟨c, tl, hdw, hpc, hcm⟩ := dropWhile_head_not isDigitC s hall
    have h2 := (takeWhile_app_not isDigitC s t hall).2
    show (if ((s ++ t).takeWhile isDigitC) ≠ [] &&
          lookSlash ((s ++ t).dropWhile isDigitC)
        then some ((s ++ t).takeWhile isDigitC).length else none) = none
    rw [h2, hdw]
    have hcns : ¬ c = '/' := fun hh => hs2 (hh ▸ hcm)
    simp [lookSlash, hcns]

/-- A UUID-shaped character list has exactly 36 characters. -/
theorem uuidShape_length (cs : List Char) (h : uuidShape cs = true) :
    cs.length = 36 := by
  simp only [uuidShape, Bool.and_eq_true] at h
  have h12 : (cs.drop 24).length = 12 := of_decide_eq_true h.1.2
  rw [List.length_drop] at h12
  omega

/-- Dropping one position past a position whose head is a dash preserves a
slash membership. -/
theorem drop_head_cons {α : Type} (l : List α) (n : Nat) (a : α)
    (h : (l.drop n).head? = some a) : l.drop n = a :: l.drop (n + 1) := by
  cases hd : l.drop n with
  | nil => rw [hd] at h; simp at h
  | cons b tl =>
      rw [hd] at h
      have hba : b = a := by simpa using h
      have htl : tl = l.drop (n + 1) := by
        have h1 : tl = (l.drop n).tail := by
          rw [hd]
          rfl
        rw [h1, List.tail_drop]
      rw [hba, htl]

/-- A slash inside a suffix that opens with a hex block lies past the block. -/
theorem no_slash_block (cs : List Char) (n k m : Nat) (hnk : n + k = m)
    (hall : ((cs.drop n).take k).all isHexCI = true)
    (hc : '/' ∈ cs.drop n) : '/' ∈ cs.drop m := by
  rcases List.mem_append.mp ((List.take_append_drop k (cs.drop n)).symm ▸ hc) with hm | hm
  · exact absurd (List.all_eq_true.mp hall _ hm) (by decide)
  · rw [List.drop_drop, hnk] at hm
    exact hm

/-- A slash inside a suffix that opens with a dash lies past the dash. -/
theorem slash_past_dash (cs : List Char) (n m : Nat) (hnm : n + 1 = m)
    (hd : (cs.drop n).head? = some '-')
    (hc : '/' ∈ cs.drop n) : '/' ∈ cs.drop m := by
  rw [drop_head_cons cs n '-' hd] at hc
  rcases List.mem_cons.mp hc with h | h
  · exact absurd h (by decide)
  · rw [hnm] at h
    exact h

/-- A UUID-shaped character list contains no slash. -/
theorem uuidShape_no_slash (cs : List Char) (h : uuidShape cs = true) :
    '/' ∉ cs := by
  intro hc
  simp only [uuidShape, Bool.and_eq_true] at h
  obtain ⟨⟨⟨⟨⟨⟨⟨⟨⟨⟨⟨⟨⟨h1, h2⟩, h3⟩, h4⟩, h5⟩, h6⟩, h7⟩, h8⟩, h9⟩, h10⟩, h11⟩, h12⟩, h13⟩, h14⟩ := h
  have hc8 : '/' ∈ cs.drop 8 := by
    refine no_slash_block cs 0 8 8 (by norm_num) ?_ ?_
    · rw [List.drop_zero]; exact h2
    · rw [List.drop_zero]; exact hc
  have hc9 := slash_past_dash cs 8 9 (by norm_num) (of_decide_eq_true h3) hc8
  have hc13 := no_slash_block cs 9 4 13 (by norm_num) h5 hc9
  have hc14 := slash_past_dash cs 13 14 (by norm_num) (of_decide_eq_true h6) hc13
  have hc18 := no_slash_block cs 14 4 18 (by norm_num) h8 hc14
  have hc19 := slash_past_dash cs 18 19 (by norm_num) (of_decide_eq_true h9) hc18
  have hc23 := no_slash_block cs 19 4 23 (by norm_num) h11 hc19
  have hc24 := slash_past_dash cs 23 24 (by norm_num) (of_decide_eq_true h12) hc23
  exact absurd (List.all_eq_true.mp h14 _ hc24) (by decide)

/-- `tryUuid` on a segment boundary decides exactly the UUID shape test. -/
theorem tryUuid_seg : ∀ s t : List Char, s ≠ [] → '/' ∉ s → lookSlash t = true →
    tryUuid (s ++ t) = if uuidShape s then some s.length else none := by
  intro s t hs1 hs2 ht
  by_cases hu : uuidShape s = true
  · rw [if_pos hu]
    have hlen : s.length = 36 := uuidShape_length s hu
    show (if uuidShape ((s ++ t).take 36) && lookSlash ((s ++ t).drop 36)
        then some 36 else none) = some s.length
    rw [List.take_left' hlen, List.drop_left' hlen, if_pos (by simp [hu, ht]), hlen]
  · rw [if_neg hu]
    show (if uuidShape ((s ++ t).take 36) && lookSlash ((s ++ t).drop 36)
        then some 36 else none) = none
    rcases Nat.lt_trichotomy s.length 36 with hlt | heq | hgt
    · apply if_neg
      intro hcond
      rw [Bool.and_eq_true] at hcond
      have hu36 := hcond.1
      have hsplit : (s ++ t).take 36 = s ++ t.take (36 - s.length) := by
        rw [List.take_append_eq_append_take, List.take_of_length_le (le_of_lt hlt)]
      have hlen36 : ((s ++ t).take 36).length = 36 := uuidShape_length _ hu36
      have hlen2 : s.length + (t.take (36 - s.length)).length = 36 := by
        rw [← List.length_append, ← hsplit, hlen36]
      cases t with
      | nil =>
          simp at hlen2
          omega
      | cons c tl =>
          have hcsl : c = '/' := by simpa [lookSlash] using ht
          have h1 : 36 - s.length = (36 - s.length - 1) + 1 := by omega
          have hmem : '/' ∈ (s ++ (c :: tl)).take 36 := by
            rw [hsplit, h1, List.take_succ_cons, hcsl]
            exact List.mem_append.mpr (Or.inr (List.mem_cons_self _ _))
          exact uuidShape_no_slash _ hu36 hmem
    · rw [List.take_left' heq, List.drop_left' heq]
      apply if_neg
      intro hcond
      rw [Bool.and_eq_true] at hcond
      exact hu hcond.1
    · apply if_neg
      intro hcond
      rw [Bool.and_eq_true] at hcond
      have hdrop : (s ++ t).drop 36 = s.drop 36 ++ t.drop (36 - s.length) :=
        List.drop_append_eq_append_drop
      have hsd : s.drop 36 ≠ [] := by
        intro hh
        have hl := congrArg List.length hh
        rw [List.length_drop] at hl
        simp at hl
        omega
      obtain ⟨c, tl, hcs⟩ : ∃ c tl, s.drop 36 = c :: tl := by
        cases hd : s.drop 36 with
        | nil => exact absurd hd hsd
        | cons c tl => exact ⟨c, tl, rfl⟩
      have hcm : c ∈ s := List.drop_subset 36 s (by rw [hcs]; exact List.mem_cons_self c tl)
      have hcns : ¬ c = '/' := fun hh => hs2 (hh ▸ hcm)
      have hfalse : lookSlash ((s ++ t).drop 36) = false := by
        rw [hdrop, hcs]
        simp [lookSlash, hcns]
      exact absurd (hcond.2.symm.trans hfalse) (by decide)

/-- `tryObjId` on a segment boundary decides exactly the 24-hex test. -/
theorem tryObjId_seg : ∀ s t : List Char, s ≠ [] → '/' ∉ s → lookSlash t = true →
    tryObjId (s ++ t) = if s.length = 24 && s.all isHexCI then some s.length else none := by
  intro s t hs1 hs2 ht
  show (if ((s ++ t).take 24).length = 24 && ((s ++ t).take 24).all isHexCI &&
        lookSlash ((s ++ t).drop 24)
      then some 24 else none) =
    if s.length = 24 && s.all isHexCI then some s.length else none
  rcases Nat.lt_trichotomy s.length 24 with hlt | heq | hgt
  · have hcond : ¬ ((s.length = 24 && s.all isHexCI) = true) := by
      intro hb
      rw [Bool.and_eq_true] at hb
      have := of_decide_eq_true hb.1
      omega
    rw [if_neg hcond]
    apply if_neg
    intro hb
    rw [Bool.and_eq_true, Bool.and_eq_true] at hb
    have hlen24 : ((s ++ t).take 24).length = 24 := of_decide_eq_true hb.1.1
    have hall := hb.1.2
    have hsplit : (s ++ t).take 24 = s ++ t.take (24 - s.length) := by
      rw [List.take_append_eq_append_take, List.take_of_length_le (le_of_lt hlt)]
    have hlen2 : s.length + (t.take (24 - s.length)).length = 24 := by
      rw [← List.length_append, ← hsplit, hlen24]
    cases t with
    | nil =>
        simp at hlen2
        omega
    | cons c tl =>
        have hcsl : c = '/' := by simpa [lookSlash] using ht
        have h1 : 24 - s.length = (24 - s.length - 1) + 1 := by omega
        have hmem : '/' ∈ (s ++ (c :: tl)).take 24 := by
          rw [hsplit, h1, List.take_succ_cons, hcsl]
          exact List.mem_append.mpr (Or.inr (List.mem_cons_self _ _))
        exact absurd (List.all_eq_true.mp hall _ hmem) (by decide)
  · rw [List.take_left' heq, List.drop_left' heq]
    by_cases hall : s.all isHexCI = true
    · rw [if_pos (show (s.length = 24 && s.all isHexCI && lookSlash t) = true by
        simp [heq, hall, ht])]
      rw [if_pos (show (s.length = 24 && s.all isHexCI) = true by simp [heq, hall])]
      rw [heq]
    · have c1 : ¬ ((s.length = 24 && s.all isHexCI && lookSlash t) = true) := by
        intro hb
        rw [Bool.and_eq_true, Bool.and_eq_true] at hb
        exact hall hb.1.2
      have c2 : ¬ ((s.length = 24 && s.all isHexCI) = true) := by
        intro hb
        rw [Bool.and_eq_true] at hb
        exact hall hb.2
      rw [if_neg c1, if_neg c2]
  · have hcond : ¬ ((s.length = 24 && s.all isHexCI) = true) := by
      intro hb
      rw [Bool.and_eq_true] at hb
      have := of_decide_eq_true hb.1
      omega
    rw [if_neg hcond]
    apply if_neg
    intro hb
    rw [Bool.and_eq_true, Bool.and_eq_true] at hb
    have hdrop : (s ++ t).drop 24 = s.drop 24 ++ t.drop (24 - s.length) :=
      List.drop_append_eq_append_drop
    have hsd : s.drop 24 ≠ [] := by
      intro hh
      have hl := congrArg List.length hh
      rw [List.length_drop] at hl
      simp at hl
      omega
    obtain ⟨c, tl, hcs⟩ : ∃ c tl, s.drop 24 = c :: tl := by
      cases hd : s.drop 24 with
      | nil => exact absurd hd hsd
      | cons c tl => exact ⟨c, tl, rfl⟩
    have hcm : c ∈ s := List.drop_subset 24 s (by rw [hcs]; exact List.mem_cons_self c tl)
    have hcns : ¬ c = '/' := fun hh => hs2 (hh ▸ hcm)
    have hfalse : lookSlash ((s ++ t).drop 24) = false := by
      rw [hdrop, hcs]
      simp [lookSlash, hcns]
    exact absurd (hb.2.symm.trans hfalse) (by decide)

/-- The three per-segment substitutions compose to the specification's
per-segment templating rule on a non-empty segment. -/
theorem segSub_decomp (x : List Char) (hx : x ≠ []) :
    segSub (fun s => s.length = 24 && s.all isHexCI) "{objectId}".data
      (segSub uuidShape "{uuid}".data
        (segSub (fun s => s.all isDigitC) "{id}".data x)) = segTemplate x := by
  unfold segSub segTemplate
  by_cases hd : x.all isDigitC = true
  · rw [if_pos hd,
      if_neg (show ¬ uuidShape "{id}".data = true by decide),
      if_neg (show ¬ ((("{id}".data).length = 24 && ("{id}".data).all isHexCI) = true) by decide),
      if_pos (show (x ≠ [] && x.all isDigitC) = true by simp [hx, hd])]
  · rw [if_neg hd,
      if_neg (show ¬ ((x ≠ [] && x.all isDigitC) = true) by
        intro hb
        rw [Bool.and_eq_true] at hb
        exact hd hb.2)]
    by_cases hu : uuidShape x = true
    · rw [if_pos hu,
        if_neg (show ¬ ((("{uuid}".data).length = 24 && ("{uuid}".data).all isHexCI) = true) by decide),
        if_pos hu]
    · rw [if_neg hu, if_neg hu]

/-- C2 (corrected): the Specification Synthesizer's `normalizePath` computes
the template by the fixed per-segment rule: for any path assembled from
non-empty slash-free segments, each all-digit segment becomes `{id}`, each
8-4-4-4-12 hex UUID-shaped segment becomes `{uuid}`, each 24-hex segment
becomes `{objectId}`, and every other segment stays literal, in that
priority order (the Pattern Analyzer's `normalizePath` does not compute
this rule, see the counterexample). -/
theorem C2_synthesizer_segment_rule :
    ∀ segs : List (List Char), (∀ s ∈ segs, wfseg s) →
      OpenAPIGenerator.normalizePath (String.mk (pathOf segs)) =
        String.mk (pathOf (segs.map segTemplate)) := by
  intro segs hwf
  show String.mk (passNC tryObjId "{objectId}".data
      (passNC tryUuid "{uuid}".data
        (passNC tryId "{id}".data (String.mk (pathOf segs)).data))) = _
  have hdata : (String.mk (pathOf segs)).data = pathOf segs := rfl
  rw [hdata,
    passNC_pathOf tryId "{id}".data (fun s => s.all isDigitC) tryId_seg segs hwf]
  have hwf1 : ∀ x ∈ segs.map (segSub (fun s => s.all isDigitC) "{id}".data),
      wfseg x := by
    intro x hx
    rcases List.mem_map.mp hx with ⟨y, hy, hxy⟩
    subst hxy
    unfold segSub
    by_cases hm : (fun s => s.all isDigitC) y = true
    · rw [if_pos hm]
      exact ⟨by decide, by decide⟩
    · rw [if_neg hm]
      exact hwf y hy
  rw [passNC_pathOf tryUuid "{uuid}".data uuidShape tryUuid_seg _ hwf1]
  have hwf2 : ∀ x ∈ (segs.map (segSub (fun s => s.all isDigitC) "{id}".data)).map
      (segSub uuidShape "{uuid}".data), wfseg x := by
    intro x hx
    rcases List.mem_map.mp hx with ⟨y, hy, hxy⟩
    subst hxy
    unfold segSub
    by_cases hm : uuidShape y = true
    · rw [if_pos hm]
      exact ⟨by decide, by decide⟩
    · rw [if_neg hm]
      exact hwf1 y hy
  rw [passNC_pathOf tryObjId "{objectId}".data
    (fun s => s.length = 24 && s.all isHexCI) tryObjId_seg _ hwf2]
  congr 1
  rw [List.map_map, List.map_map]
  congr 1
  apply List.map_congr_left
  intro x hx
  exact segSub_decomp x (hwf x hx).1

/-- C2 witness: on the concrete segments `users` and `42` the rule applies and
yields `normalizePath "/users/42" = "/users/{id}"`. -/
theorem C2_synthesizer_segment_rule_witness :
    OpenAPIGenerator.normalizePath "/users/42" = "/users/{id}" := by
  have h := C2_synthesizer_segment_rule ["users".data, "42".data] (by
    intro s hs
    simp only [List.mem_cons, List.not_mem_nil, or_false] at hs
    rcases hs with h1 | h1 <;> subst h1 <;> exact ⟨by decide, by decide⟩)
  have e1 : String.mk (pathOf ["users".data, "42".data]) = "/users/42" := by decide
  have e2 : String.mk (pathOf (List.map segTemplate ["users".data, "42".data])) =
      "/users/{id}" := by decide
  rw [e1, e2] at h
  exact h
